import Mathlib

/-!
xpbot-telegram: a shallow embedding of `main.go`.

The bot keeps one Redis sorted set of experience points per chat, resolves a
level from a configured threshold table and answers `/xp`, `/givexp` and
`/ranks`.  This file embeds the handler code of `main.go` as executable Lean
definitions and states the behaviour of the handlers as theorems.

Conventions of the embedding.

* A Go `string` is its byte sequence, a `List Nat` of values below 256.
* `int`, `int64` are `Int`; the one subtraction of the program that can
  leave the 64-bit range is reduced with `wrapInt64`.
* A run-time panic (index out of range, nil dereference) is `none`.
* Redis and the Telegram transport are state: the sorted sets and the list of
  messages handed to the transport.
* A `float64` is only ever used for an integral value, and is the integer it
  holds: `float64(i)` and the addition of two scores round to the nearest
  double (`roundDouble`), which changes nothing up to `2^53`.
* `go f(x)` is recorded as a `Task`; `handler.processMsg` runs the tasks of a
  message one after the other, in the order they were spawned.
-/

set_option autoImplicit false

namespace XPBot

/-! ## Strings -/

/-- A Go string: a sequence of bytes. -/
abbrev GoString := List Nat

/-- The bytes of an ASCII literal (for ASCII text the code points are the
UTF-8 bytes). -/
def ascii (s : String) : GoString := s.toList.map Char.toNat

/-- Go `strings.HasPrefix`: `len(s) >= len(prefix) && s[:len(prefix)] == prefix`. -/
def hasPrefix (s pre : GoString) : Bool :=
  decide (pre.length ≤ s.length) && (s.take pre.length == pre)

/-- Go `strings.TrimPrefix`. -/
def trimPrefix (s pre : GoString) : GoString :=
  if hasPrefix s pre then s.drop pre.length else s

/-- Splits `s` around the first occurrence of the byte `sep`
(`strings.Index` followed by the two slicings of `genSplit`). -/
def cut : GoString → Nat → Option (GoString × GoString)
  | [], _ => none
  | c :: cs, sep =>
    if c = sep then some ([], cs)
    else (cut cs sep).map (fun p => (c :: p.1, p.2))

/-- Go `strings.SplitN(s, sep, n)` for a one-byte separator and `n ≥ 0`:
at most `n` substrings, the last one being the unsplit remainder. -/
def splitN (s : GoString) (sep : Nat) : Nat → List GoString
  | 0 => []
  | 1 => [s]
  | n + 2 =>
    match cut s sep with
    | none => [s]
    | some (a, b) => a :: splitN b sep (n + 1)

/-! ## Integers -/

def minInt64 : Int := -9223372036854775808

def maxInt64 : Int := 9223372036854775807

/-- The values of Go's `int64`. -/
def inInt64 (x : Int) : Prop := minInt64 ≤ x ∧ x ≤ maxInt64

instance (x : Int) : Decidable (inInt64 x) := by
  unfold inInt64; infer_instance

/-- Two's-complement reduction of an integer to the `int64` range. -/
def wrapInt64 (x : Int) : Int := (x + 9223372036854775808) % 18446744073709551616 - 9223372036854775808

/-- Go's conversion `int64(f)` of an integral double `f`.  In range it is
the identity; out of range Go leaves the result implementation-dependent, and
the value produced on amd64 (the minimum) is taken. -/
def int64OfScore (x : Int) : Int := if inInt64 x then x else minInt64

/-- Number of binary digits of `n` (with enough fuel, `n` itself). -/
def bitLength : Nat → Nat → Nat
  | 0, _ => 0
  | fuel + 1, n => if n = 0 then 0 else bitLength fuel (n / 2) + 1

/-- Rounding of an integer to the nearest IEEE double (53 significant bits,
ties to even), as an integer; infinities are out of reach of the program
and not modelled. -/
def roundDouble (x : Int) : Int :=
  if x.natAbs < 9007199254740992 then x
  else
    let e := bitLength x.natAbs x.natAbs - 53
    let q := x.natAbs / 2 ^ e
    let r := x.natAbs % 2 ^ e
    let m := if r > 2 ^ (e - 1) ∨ (r = 2 ^ (e - 1) ∧ q % 2 = 1) then (q + 1) * 2 ^ e else q * 2 ^ e
    if x < 0 then -(m : Int) else (m : Int)

/-- Go's conversion `float64(i)` of an `int64`. -/
def float64OfInt64 (i : Int) : Int := roundDouble i

/-- The integers between `-2^53` and `2^53`, each of which is a double. -/
def exactDouble (x : Int) : Prop := -9007199254740992 ≤ x ∧ x ≤ 9007199254740992

instance (x : Int) : Decidable (exactDouble x) := by
  unfold exactDouble; infer_instance

/-- Value of a run of decimal digits, continuing from `n`; `none` at a byte
that is not a digit (the loop of `strconv.ParseUint` in base 10). -/
def digitsVal : GoString → Nat → Option Nat
  | [], n => some n
  | c :: cs, n => if 48 ≤ c ∧ c ≤ 57 then digitsVal cs (n * 10 + (c - 48)) else none

/-- Go `strconv.ParseInt(s, 10, 64)`; `none` stands for a non-nil error
(syntax or range). -/
def parseInt (s : GoString) : Option Int :=
  match s with
  | [] => none
  | c :: cs =>
    let neg := c = 45
    let body := if c = 43 ∨ c = 45 then cs else s
    if body = [] then none
    else
      match digitsVal body 0 with
      | none => none
      | some un =>
        if neg then (if un > 9223372036854775808 then none else some (-(un : Int)))
        else (if un ≥ 9223372036854775808 then none else some (un : Int))

/-- Decimal digits of `n`, most significant first, in front of `acc`. -/
def digitsFuel : Nat → Nat → GoString → GoString
  | 0, _, acc => acc
  | fuel + 1, n, acc =>
    if n < 10 then (48 + n) :: acc
    else digitsFuel fuel (n / 10) ((48 + n % 10) :: acc)

/-- Decimal rendering of a natural number. -/
def formatUint (n : Nat) : GoString := digitsFuel (n + 1) n []

/-- Go `strconv.FormatInt(i, 10)`, also `strconv.Itoa` and the verb `%d`. -/
def formatInt (i : Int) : GoString :=
  if i < 0 then 45 :: formatUint i.natAbs else formatUint i.toNat

/-! ## Configuration and levels -/

/-- The Go `level` struct. -/
structure level where
  Level : Int
  XP : Int
  Title : GoString
  Format : GoString
  deriving DecidableEq, Repr

/-- The Go `config` struct. -/
structure config where
  BotToken : GoString
  RedisURL : GoString
  Levels : List level
  Admins : List GoString
  NotAnAdmin : GoString

/-- The `handler` struct: the configuration, and Go's `fmt.Sprintf` at the
five arguments of `formatTitle`, which is outside the repository and left
uninterpreted. -/
structure handler where
  config : config
  sprintf : GoString → GoString → Int → Int → Int → Int → GoString

/-- Go `(*level).formatTitle`. -/
def handler.formatTitle (h : handler) (l : level) (username : GoString) (xp rankPos rankTotal : Int) :
    GoString :=
  h.sprintf l.Format username xp l.Level rankPos rankTotal

/-- The `for ... range` loop of `getLevel`, from position `i` on: the position
and the value of the first level with `xp < l.XP`. -/
def scanLevels : List level → Nat → Int → Option (Nat × level)
  | [], _, _ => none
  | l :: ls, i, xp => if xp < l.XP then some (i, l) else scanLevels ls (i + 1) xp

/-- Go `(*handler).getLevel`.  The result is a pointer into the level list:
its position (the identity of the pointer) and the level it points to.  On an
empty list the final index expression panics. -/
def handler.getLevel (h : handler) (xp : Int) : Option (Nat × level) :=
  match scanLevels h.config.Levels 0 xp with
  | some r => some r
  | none =>
    match h.config.Levels[h.config.Levels.length - 1]? with
    | some l => some (h.config.Levels.length - 1, l)
    | none => none

/-! ## Commands -/

/-- Go `isCommand`; `none` would be an index out of range. -/
def isCommand (str pre : GoString) : Option Bool :=
  if str = pre then some true
  else if hasPrefix str pre then
    match str[pre.length]? with
    | none => none
    | some c => some (c == 32 || c == 64)
  else some false

/-- Go `getXPKey`. -/
def getXPKey (chatID : Int) : GoString := ascii "XPBOT_" ++ formatInt chatID

/-- Go `formatRank`: the three medals are the UTF-8 bytes of U+1F947,
U+1F948 and U+1F949. -/
def formatRank (i : Int) : GoString :=
  if i = 1 then [0xf0, 0x9f, 0xa5, 0x87]
  else if i = 2 then [0xf0, 0x9f, 0xa5, 0x88]
  else if i = 3 then [0xf0, 0x9f, 0xa5, 0x89]
  else ascii "#" ++ formatInt i

/-! ## The Redis sorted sets -/

/-- A sorted set: members with their scores (integral doubles), each member
at most once. -/
abbrev ZSet := List (GoString × Int)

/-- Bytewise lexicographic order (`memcmp`), the order Redis gives to members
of equal score. -/
def bytesLe : GoString → GoString → Bool
  | [], _ => true
  | _ :: _, [] => false
  | a :: as, b :: bs => decide (a < b) || (decide (a = b) && bytesLe as bs)

/-- The order of a sorted set: by score, then by member. -/
def zLe (a b : GoString × Int) : Bool :=
  decide (a.2 < b.2) || (decide (a.2 = b.2) && bytesLe a.1 b.1)

/-- The sorted set from the highest to the lowest score. -/
def zRev (z : ZSet) : ZSet := z.insertionSort (fun a b => zLe b a = true)

/-- Redis `ZSCORE`. -/
def zscore : ZSet → GoString → Option Int
  | [], _ => none
  | (k, v) :: rest, m => if k = m then some v else zscore rest m

/-- Redis `ZINCRBY`: the new set and the new score of the member, the sum of
the two doubles; an absent member is created with the score `incr`. -/
def zincrby : ZSet → Int → GoString → ZSet × Int
  | [], incr, m => ([(m, incr)], incr)
  | (k, v) :: rest, incr, m =>
    if k = m then ((k, roundDouble (v + incr)) :: rest, roundDouble (v + incr))
    else ((k, v) :: (zincrby rest incr m).1, (zincrby rest incr m).2)

/-- Redis `ZREVRANK`: the 0-based position from the highest score. -/
def zrevrank (z : ZSet) (m : GoString) : Option Nat :=
  (zRev z).findIdx? (fun e => decide (e.1 = m))

/-- Redis `ZREVRANGE key start stop WITHSCORES` for non-negative indexes,
both inclusive. -/
def zrevrange (z : ZSet) (start stop : Nat) : ZSet :=
  ((zRev z).drop start).take (stop + 1 - start)

/-- The Redis server: whether it is unreachable, and its sorted sets by key. -/
structure Store where
  down : Bool
  sets : GoString → ZSet

/-- The errors of a Redis call: `redis.Nil`, or a failed or timed-out call. -/
inductive dbErr where
  | Nil
  | io
  deriving DecidableEq, Repr

/-- The server with the sorted set under `key` replaced by `z`. -/
def Store.put (db : Store) (key : GoString) (z : ZSet) : Store :=
  { db with sets := fun k => if k = key then z else db.sets k }

/-- Client call `ZIncrBy(ctx, key, incr, member).Result()`. -/
def Store.ZIncrBy (db : Store) (key : GoString) (incr : Int) (member : GoString) :
    Except dbErr (Store × Int) :=
  if db.down then .error .io
  else
    .ok (db.put key (zincrby (db.sets key) incr member).1, (zincrby (db.sets key) incr member).2)

/-- Client call `ZRevRangeWithScores(ctx, key, start, stop).Result()`. -/
def Store.ZRevRangeWithScores (db : Store) (key : GoString) (start stop : Nat) : Except dbErr ZSet :=
  if db.down then .error .io else .ok (zrevrange (db.sets key) start stop)

/-! ## The Telegram transport and the handler state -/

inductive parseMode where
  | ModeHTML
  | ModeMarkdown
  deriving DecidableEq, Repr

/-- The fields of `tgbotapi.MessageConfig` the program sets. -/
structure MessageConfig where
  ChatID : Int
  ReplyToMessageID : Int
  Text : GoString
  ParseMode : parseMode
  DisableWebPagePreview : Bool
  deriving DecidableEq, Repr

/-- What a handler reads and writes: Redis, the messages handed to
`bot.Send` (oldest first), whether `bot.Send` reports an error, and the
error log. -/
structure State where
  db : Store
  botDown : Bool
  sent : List MessageConfig
  logged : List GoString

/-- Call `h.bot.Send(m)`. -/
def State.Send (st : State) (m : MessageConfig) : State := { st with sent := st.sent ++ [m] }

/-- Call `h.log.Error(text, ...)`. -/
def State.logError (st : State) (text : GoString) : State := { st with logged := st.logged ++ [text] }

/-- Go `tgbotapi.User`. -/
structure User where
  UserName : GoString
  deriving DecidableEq, Repr

/-- The fields of `tgbotapi.Message` the program reads; `From` is a pointer
and may be nil. -/
structure Message where
  MessageID : Int
  From : Option User
  ChatID : Int
  Text : GoString

/-! ## Handlers -/

/-- Go `(*handler).getScore`: the pipeline of `ZSCORE`, `ZREVRANK`, `ZCARD`. -/
def handler.getScore (_h : handler) (db : Store) (userName : GoString) (chatID : Int) :
    Except dbErr (Int × Int × Int) :=
  if db.down then .error .io
  else
    match zscore (db.sets (getXPKey chatID)) userName, zrevrank (db.sets (getXPKey chatID)) userName with
    | some score, some rank =>
      .ok (int64OfScore score, (rank : Int) + 1, ((db.sets (getXPKey chatID)).length : Int))
    | _, _ => .error .Nil

/-- Go `(*handler).printXP`. -/
def handler.printXP (h : handler) (st : State) (username : GoString) (chatID msgID : Int) :
    Option State :=
  match h.getScore st.db username chatID with
  | .error .Nil => some st
  | .error .io => some (st.logError (ascii "Failed to retrieve XP"))
  | .ok (xp, rank, total) =>
    match h.getLevel xp with
    | none => none
    | some lvl =>
      let st1 := st.Send
        { ChatID := chatID, ReplyToMessageID := msgID,
          Text := h.formatTitle lvl.2 username xp rank total,
          ParseMode := .ModeHTML, DisableWebPagePreview := true }
      if st1.botDown then some (st1.logError (ascii "Failed to reply with XP")) else some st1

/-- The test of `incrementXP` on the score returned by `ZINCRBY`:
`oldScore := int64(newScore) - increment`, then whether the pointers
`getLevel(oldScore)` and `getLevel(int64(newScore))` differ. -/
def handler.levelChanged (h : handler) (newScore : Int) : Option Bool :=
  match h.getLevel (wrapInt64 (int64OfScore newScore - 1)), h.getLevel (int64OfScore newScore) with
  | some oldLevel, some newLevel => some (decide (oldLevel.1 ≠ newLevel.1))
  | _, _ => none

/-- Go `(*handler).incrementXP`. -/
def handler.incrementXP (h : handler) (st : State) (sender : Option User) (chatID : Int) :
    Option State :=
  match sender with
  | none => none
  | some u =>
    match st.db.ZIncrBy (getXPKey chatID) (float64OfInt64 1) u.UserName with
    | .error _ => some (st.logError (ascii "Failed to increment XP"))
    | .ok (db1, newScore) =>
      match h.levelChanged newScore with
      | none => none
      | some true => h.printXP { st with db := db1 } u.UserName chatID 0
      | some false => some { st with db := db1 }

/-- Go `(*handler).giveXP`. -/
def handler.giveXP (h : handler) (st : State) (invoc : GoString) (chatID : Int)
    (fromUsername : GoString) (msgID : Int) : Option State :=
  if ¬ h.config.Admins.any (fun u => decide (u = fromUsername)) then
    some (st.Send
      { ChatID := chatID, ReplyToMessageID := msgID, Text := h.config.NotAnAdmin,
        ParseMode := .ModeMarkdown, DisableWebPagePreview := true })
  else
    match splitN invoc 32 3 with
    | [_, p1, p2] =>
      match parseInt p2 with
      | none => some st
      | some num =>
        match st.db.ZIncrBy (getXPKey chatID) (float64OfInt64 num) (trimPrefix p1 (ascii "@")) with
        | .error _ => some (st.logError (ascii "Failed to give XP"))
        | .ok (db1, _) => h.printXP { st with db := db1 } (trimPrefix p1 (ascii "@")) chatID msgID
    | _ =>
      some (st.Send
        { ChatID := chatID, ReplyToMessageID := msgID, Text := ascii "Usage: " ++ [96] ++ ascii "/givexp @terorie 123" ++ [96],
          ParseMode := .ModeMarkdown, DisableWebPagePreview := true })

/-- One line of the leaderboard, `fmt.Sprintf` at the format
`%s <b>%s</b> – %s (%d XP)` (after the dash, E2 80 93, the source has a word
joiner, E2 81 A0). -/
def rankLine (rank member title : GoString) (xp : Int) : GoString :=
  rank ++ ascii " <b>" ++ member ++ ascii "</b> " ++ [0xe2, 0x80, 0x93, 0xe2, 0x81, 0xa0] ++ ascii " " ++
    title ++ ascii " (" ++ formatInt xp ++ ascii " XP)"

/-- The string written for the entry `z` at index `i` of the loop of `ranks`:
the `fmt.Sprintf` call with its four arguments. -/
def handler.rankEntry (h : handler) (i : Nat) (z : GoString × Int) : Option GoString :=
  match h.getLevel (int64OfScore z.2) with
  | none => none
  | some lvl => some (rankLine (formatRank ((i : Int) + 1)) z.1 lvl.2.Title (int64OfScore z.2))

/-- The `for i, z := range zs` loop of `ranks`, from index `i` on, writing to
the builder `b`. -/
def handler.ranksLoop (h : handler) : ZSet → Nat → GoString → Option GoString
  | [], _, b => some b
  | z :: zs, i, b =>
    match h.rankEntry i z with
    | none => none
    | some line => h.ranksLoop zs (i + 1) ((if i ≠ 0 then b ++ [10] else b) ++ line)

/-- Go `(*handler).ranks`. -/
def handler.ranks (h : handler) (st : State) (chatID : Int) : Option State :=
  match st.db.ZRevRangeWithScores (getXPKey chatID) 0 10 with
  | .error _ => some (st.logError (ascii "Failed to display ranks"))
  | .ok zs =>
    if zs.length = 0 then some st
    else
      match h.ranksLoop zs 0 [] with
      | none => none
      | some text =>
        let st1 := st.Send
          { ChatID := chatID, ReplyToMessageID := 0, Text := text,
            ParseMode := .ModeHTML, DisableWebPagePreview := true }
        if st1.botDown then some (st1.logError (ascii "Failed to display ranks")) else some st1

/-- A goroutine started by `handleMsg`, with the arguments evaluated at the
`go` statement. -/
inductive Task where
  | printXP (username : GoString) (chatID msgID : Int)
  | giveXP (invoc : GoString) (chatID : Int) (fromUsername : GoString) (msgID : Int)
  | ranks (chatID : Int)
  | incrementXP (sender : Option User) (chatID : Int)
  deriving DecidableEq, Repr

/-- Go `(*handler).handleMsg`: the goroutines it starts, in order; `none`
is a panic while the arguments of a `go` statement are evaluated. -/
def handleMsg (msg : Message) : Option (List Task) :=
  match isCommand msg.Text (ascii "/xp") with
  | none => none
  | some true =>
    if (splitN msg.Text 32 2).length = 1 then
      match msg.From with
      | none => none
      | some u => some [Task.printXP u.UserName msg.ChatID msg.MessageID]
    else
      match (splitN msg.Text 32 2)[1]? with
      | none => none
      | some p1 => some [Task.printXP (trimPrefix p1 (ascii "@")) msg.ChatID msg.MessageID]
  | some false =>
    match isCommand msg.Text (ascii "/givexp"), isCommand msg.Text (ascii "/ranks") with
    | some g, some r =>
      match (if g then msg.From.map (fun u => [Task.giveXP msg.Text msg.ChatID u.UserName msg.MessageID])
             else some []) with
      | none => none
      | some t1 =>
        some (t1 ++ (if r then [Task.ranks msg.ChatID] else []) ++ [Task.incrementXP msg.From msg.ChatID])
    | _, _ => none

/-- The body of one goroutine. -/
def handler.runTask (h : handler) (st : State) : Task → Option State
  | .printXP username chatID msgID => h.printXP st username chatID msgID
  | .giveXP invoc chatID fromUsername msgID => h.giveXP st invoc chatID fromUsername msgID
  | .ranks chatID => h.ranks st chatID
  | .incrementXP u chatID => h.incrementXP st u chatID

/-- Runs goroutines one after the other, in the given order. -/
def handler.runTasks (h : handler) : State → List Task → Option State
  | st, [] => some st
  | st, t :: ts =>
    match h.runTask st t with
    | none => none
    | some st1 => h.runTasks st1 ts

/-- Handles one message sequentially: `handleMsg`, then the goroutines it
started, in the order they were started. -/
def handler.processMsg (h : handler) (st : State) (msg : Message) : Option State :=
  match handleMsg msg with
  | none => none
  | some ts => h.runTasks st ts

/-- Handles a sequence of messages, each to completion before the next. -/
def handler.processAll (h : handler) : State → List Message → Option State
  | st, [] => some st
  | st, m :: ms =>
    match h.processMsg st m with
    | none => none
    | some st1 => h.processAll st1 ms

/-! ## Concrete configurations used in the examples -/

/-- A stand-in for `fmt.Sprintf` in the examples: the template followed by
the five arguments, separated by spaces. -/
def sprintfArgs (format username : GoString) (xp lvl rankPos rankTotal : Int) : GoString :=
  format ++ [32] ++ username ++ [32] ++ formatInt xp ++ [32] ++ formatInt lvl ++ [32] ++
    formatInt rankPos ++ [32] ++ formatInt rankTotal

/-- A handler over the given level table and admin list. -/
def handlerOf (levels : List level) (admins : List GoString) : handler :=
  { config := { BotToken := ascii "token", RedisURL := ascii "redis://localhost", Levels := levels,
                Admins := admins, NotAnAdmin := ascii "You are not an admin" },
    sprintf := sprintfArgs }

/-- Levels with the thresholds 0, 100, 500. -/
def levels0_100_500 : List level :=
  [⟨1, 0, ascii "Newbie", ascii "%s"⟩, ⟨2, 100, ascii "Regular", ascii "%s"⟩, ⟨3, 500, ascii "Veteran", ascii "%s"⟩]

/-- Levels with the thresholds 0 and 50. -/
def levels0_50 : List level :=
  [⟨1, 0, ascii "Newbie", ascii "%s"⟩, ⟨2, 50, ascii "Regular", ascii "%s"⟩]

/-- The levels of the end-to-end scenario: thresholds 0, 50, 150 with the
level numbers 1, 2, 3. -/
def levels0_50_150 : List level :=
  [⟨1, 0, ascii "Newbie", ascii "%s"⟩, ⟨2, 50, ascii "Regular", ascii "%s"⟩, ⟨3, 150, ascii "Veteran", ascii "%s"⟩]

/-- A reachable Redis with the given sorted set under the key of chat 5 and
nothing else, a working transport, nothing sent or logged. -/
def stateOf (z : ZSet) : State :=
  { db := { down := false, sets := fun k => if k = getXPKey 5 then z else [] },
    botDown := false, sent := [], logged := [] }

/-- The sender of the end-to-end scenario. -/
def dave : User := ⟨ascii "dave"⟩

/-- A plain message of dave in chat 5. -/
def daveMsg : Message := { MessageID := 7, From := some dave, ChatID := 5, Text := ascii "hello" }

/-! ## Lemmas on strings -/

theorem hasPrefix_iff (s pre : GoString) : hasPrefix s pre = true ↔ ∃ rest, s = pre ++ rest := by
  unfold hasPrefix
  constructor
  · intro h
    simp only [Bool.and_eq_true, decide_eq_true_eq, beq_iff_eq] at h
    refine ⟨s.drop pre.length, ?_⟩
    conv_lhs => rw [← List.take_append_drop pre.length s]
    rw [h.2]
  · rintro ⟨rest, rfl⟩
    simp

theorem hasPrefix_append (pre rest : GoString) : hasPrefix (pre ++ rest) pre = true :=
  (hasPrefix_iff _ _).2 ⟨rest, rfl⟩

theorem trimPrefix_append (pre rest : GoString) : trimPrefix (pre ++ rest) pre = rest := by
  unfold trimPrefix
  rw [if_pos (hasPrefix_append pre rest)]
  simp

theorem cut_eq_none (s : GoString) (sep : Nat) : cut s sep = none ↔ sep ∉ s := by
  induction s with
  | nil => simp [cut]
  | cons c cs ih =>
    unfold cut
    by_cases hc : c = sep
    · simp [hc]
    · simp [hc, ih, Ne.symm hc]

theorem cut_append (a b : GoString) (sep : Nat) (ha : sep ∉ a) :
    cut (a ++ sep :: b) sep = some (a, b) := by
  induction a with
  | nil => simp [cut]
  | cons c cs ih =>
    have hc : c ≠ sep := fun e => ha (by simp [e])
    have hcs : sep ∉ cs := fun e => ha (by simp [e])
    simp [cut, hc, ih hcs]

theorem cut_some (s a b : GoString) (sep : Nat) (h : cut s sep = some (a, b)) :
    s = a ++ sep :: b ∧ sep ∉ a := by
  induction s generalizing a with
  | nil => simp [cut] at h
  | cons c cs ih =>
    unfold cut at h
    by_cases hc : c = sep
    · simp [hc] at h
      obtain ⟨rfl, rfl⟩ := h
      simp [hc]
    · simp only [hc, if_false, Option.map_eq_some'] at h
      obtain ⟨⟨a1, b1⟩, h1, h2⟩ := h
      simp only [Prod.mk.injEq] at h2
      obtain ⟨rfl, rfl⟩ := h2
      obtain ⟨e, hn⟩ := ih a1 h1
      refine ⟨by simp [e], ?_⟩
      simp [Ne.symm hc, hn]

/-! ## Lemmas on the level table -/

theorem scanLevels_none (ls : List level) (i : Nat) (xp : Int) :
    scanLevels ls i xp = none ↔ ∀ l ∈ ls, l.XP ≤ xp := by
  induction ls generalizing i with
  | nil => simp [scanLevels]
  | cons l ls ih =>
    unfold scanLevels
    by_cases hl : xp < l.XP
    · simp [hl]
    · simp [hl, ih, not_lt.1 hl]

theorem scanLevels_some (ls : List level) (i : Nat) (xp : Int) (k : Nat) (l : level)
    (h : scanLevels ls i xp = some (k, l)) :
    ∃ j, k = i + j ∧ ls[j]? = some l ∧ xp < l.XP ∧
      ∀ j1 l1, j1 < j → ls[j1]? = some l1 → l1.XP ≤ xp := by
  induction ls generalizing i with
  | nil => simp [scanLevels] at h
  | cons l0 ls ih =>
    unfold scanLevels at h
    by_cases hl : xp < l0.XP
    · simp only [hl, if_true, Option.some.injEq, Prod.mk.injEq] at h
      obtain ⟨rfl, rfl⟩ := h
      exact ⟨0, by simp, by simp, hl, by intro j1 l1 hj; omega⟩
    · simp only [hl, if_false] at h
      obtain ⟨j, hk, hj, hx, hbelow⟩ := ih (i + 1) h
      refine ⟨j + 1, by omega, by simpa using hj, hx, ?_⟩
      intro j1 l1 hj1 hl1
      cases j1 with
      | zero =>
        simp at hl1
        subst hl1
        exact not_lt.1 hl
      | succ j2 =>
        exact hbelow j2 l1 (by omega) (by simpa using hl1)

theorem getLast_getElem? (ls : List level) (hne : ls ≠ []) :
    ∃ l, ls[ls.length - 1]? = some l ∧ ls.getLast? = some l := by
  refine ⟨ls.getLast hne, ?_, List.getLast?_eq_getLast _ hne⟩
  rw [List.getLast_eq_getElem]
  exact List.getElem?_eq_getElem _

theorem getLevel_fst (h : handler) (xp : Int) (hne : h.config.Levels ≠ []) :
    ∃ l, h.getLevel xp =
      some (((scanLevels h.config.Levels 0 xp).map Prod.fst).getD (0 + h.config.Levels.length - 1), l) := by
  unfold handler.getLevel
  cases hs : scanLevels h.config.Levels 0 xp with
  | some r => exact ⟨r.2, by simp⟩
  | none =>
    obtain ⟨l, hl, _⟩ := getLast_getElem? h.config.Levels hne
    exact ⟨l, by simp [hl]⟩

theorem wrapInt64_pred (s : Int) (h1 : minInt64 < s) (h2 : s ≤ maxInt64) : wrapInt64 (s - 1) = s - 1 := by
  unfold minInt64 at h1
  unfold maxInt64 at h2
  unfold wrapInt64
  omega

theorem int64OfScore_id (s : Int) (h1 : minInt64 ≤ s) (h2 : s ≤ maxInt64) : int64OfScore s = s := by
  unfold int64OfScore inInt64
  simp [h1, h2]

theorem scan_step_iff (ls : List level) (hs : (ls.map level.XP).Pairwise (· < ·)) (i : Nat) (s : Int) :
    (((scanLevels ls i (s - 1)).map Prod.fst).getD (i + ls.length - 1) ≠
      ((scanLevels ls i s).map Prod.fst).getD (i + ls.length - 1)) ↔ ∃ l ∈ ls.dropLast, l.XP = s := by
  induction ls generalizing i with
  | nil => simp [scanLevels]
  | cons l ls ih =>
    have hlen : i + (l :: ls).length - 1 = (i + 1) + ls.length - 1 := by simp only [List.length_cons]; omega
    rw [hlen]
    simp only [List.map_cons, List.pairwise_cons, List.mem_map, forall_exists_index, and_imp,
      forall_apply_eq_imp_iff₂] at hs
    obtain ⟨hhd, htl⟩ := hs
    have ihh := ih htl (i + 1)
    rcases lt_trichotomy s l.XP with hlt | heq | hgt
    · have h1 : s - 1 < l.XP := by omega
      simp only [scanLevels, hlt, h1, if_true, Option.map_some', Option.getD_some, ne_eq,
        not_true_eq_false, false_iff, not_exists, not_and]
      intro l1 hl1 he
      have hm : l1 ∈ l :: ls := List.dropLast_subset _ hl1
      rcases List.mem_cons.1 hm with rfl | hm
      · omega
      · have := hhd l1 hm
        omega
    · have h1 : s - 1 < l.XP := by omega
      have h2 : ¬ s < l.XP := by omega
      cases ls with
      | nil => simp [scanLevels, h1, h2]
      | cons l2 t =>
        have h3 : s < l2.XP := by
          have := hhd l2 (by simp)
          omega
        simp only [scanLevels, h1, h2, h3, if_true, if_false, Option.map_some', Option.getD_some]
        constructor
        · intro _
          exact ⟨l, by simp, heq.symm⟩
        · intro _
          omega
    · have h1 : ¬ s - 1 < l.XP := by omega
      have h2 : ¬ s < l.XP := by omega
      simp only [scanLevels, h1, h2, if_false]
      rw [ihh]
      cases ls with
      | nil => simp
      | cons l2 t =>
        simp only [List.dropLast_cons₂, List.mem_cons, exists_eq_or_imp]
        constructor
        · intro hx
          exact Or.inr hx
        · rintro (hx | hx)
          · omega
          · exact hx

theorem levelChanged_eq (h : handler) (hne : h.config.Levels ≠ []) (s : Int)
    (h1 : minInt64 < s) (h2 : s ≤ maxInt64) :
    h.levelChanged s = some (decide
      (((scanLevels h.config.Levels 0 (s - 1)).map Prod.fst).getD (0 + h.config.Levels.length - 1) ≠
        ((scanLevels h.config.Levels 0 s).map Prod.fst).getD (0 + h.config.Levels.length - 1))) := by
  unfold handler.levelChanged
  rw [int64OfScore_id s (le_of_lt h1) h2, wrapInt64_pred s h1 h2]
  obtain ⟨l1, e1⟩ := getLevel_fst h (s - 1) hne
  obtain ⟨l2, e2⟩ := getLevel_fst h s hne
  rw [e1, e2]

/-! ## Level resolution -/

/-- C1: on a non-empty level list `getLevel` does not fail and returns a level of
the list, at its position: the first one in list order whose threshold is
strictly greater than `xp` (every level before it has a threshold at most
`xp`), or, when no threshold is greater than `xp`, the last level of the
list.  Sortedness of the list is not needed. -/
theorem getLevel_first_above_or_last (h : handler) (xp : Int) (hne : h.config.Levels ≠ []) :
    ∃ i l, h.getLevel xp = some (i, l) ∧ h.config.Levels[i]? = some l ∧
      ((xp < l.XP ∧ ∀ j l1, j < i → h.config.Levels[j]? = some l1 → l1.XP ≤ xp) ∨
       ((∀ l1 ∈ h.config.Levels, l1.XP ≤ xp) ∧ i = h.config.Levels.length - 1 ∧
          h.config.Levels.getLast? = some l)) := by
  unfold handler.getLevel
  cases hs : scanLevels h.config.Levels 0 xp with
  | some r =>
    obtain ⟨k, l⟩ := r
    obtain ⟨j, hk, hj, hx, hbelow⟩ := scanLevels_some _ _ _ _ _ hs
    have hkj : k = j := by omega
    subst hkj
    exact ⟨k, l, rfl, hj, Or.inl ⟨hx, hbelow⟩⟩
  | none =>
    obtain ⟨l, hl, hlast⟩ := getLast_getElem? h.config.Levels hne
    refine ⟨h.config.Levels.length - 1, l, by simp [hl], hl, Or.inr ⟨?_, rfl, hlast⟩⟩
    exact (scanLevels_none _ _ _).1 hs

/-- With the thresholds 0, 100, 500: `xp = 50` resolves to the 100-threshold
level and `xp = 1000` to the 500-threshold level. -/
theorem getLevel_first_above_or_last_witness :
    (handlerOf levels0_100_500 []).config.Levels ≠ [] ∧
    (∃ i l, (handlerOf levels0_100_500 []).getLevel 50 = some (i, l) ∧
      (handlerOf levels0_100_500 []).config.Levels[i]? = some l ∧
      ((50 < l.XP ∧ ∀ j l1, j < i → (handlerOf levels0_100_500 []).config.Levels[j]? = some l1 → l1.XP ≤ 50) ∨
       ((∀ l1 ∈ (handlerOf levels0_100_500 []).config.Levels, l1.XP ≤ 50) ∧
          i = (handlerOf levels0_100_500 []).config.Levels.length - 1 ∧
          (handlerOf levels0_100_500 []).config.Levels.getLast? = some l))) ∧
    ((handlerOf levels0_100_500 []).getLevel 50).map (fun r => (r.1, r.2.XP)) = some (1, 100) ∧
    ((handlerOf levels0_100_500 []).getLevel 1000).map (fun r => (r.1, r.2.XP)) = some (2, 500) :=
  ⟨by decide, getLevel_first_above_or_last (handlerOf levels0_100_500 []) 50 (by decide),
    by decide, by decide⟩

/-! ## Command recognition -/

/-- C2: `isCommand str prefix` never indexes out of range, and it is true exactly
when `str` equals the prefix or `str` is the prefix followed by a byte that is
a space (32) or `@` (64) and then anything.  `/xp`, `/xp @bob`, `/xp extra`
and `/xp@botname` match the prefix `/xp`; `/xpfoo` does not. -/
theorem isCommand_iff :
    (∀ str pre : GoString, ∃ b, isCommand str pre = some b ∧
      (b = true ↔ (str = pre ∨ ∃ c rest, str = pre ++ c :: rest ∧ (c = 32 ∨ c = 64)))) ∧
    isCommand (ascii "/xp") (ascii "/xp") = some true ∧
    isCommand (ascii "/xp @bob") (ascii "/xp") = some true ∧
    isCommand (ascii "/xp extra") (ascii "/xp") = some true ∧
    isCommand (ascii "/xp@botname") (ascii "/xp") = some true ∧
    isCommand (ascii "/xpfoo") (ascii "/xp") = some false := by
  refine ⟨?_, by decide, by decide, by decide, by decide, by decide⟩
  intro str pre
  unfold isCommand
  by_cases he : str = pre
  · exact ⟨true, by simp [he], by simp [he]⟩
  · rw [if_neg he]
    by_cases hp : hasPrefix str pre = true
    · rw [if_pos hp]
      obtain ⟨rest, rfl⟩ := (hasPrefix_iff _ _).1 hp
      cases rest with
      | nil => simp at he
      | cons c rest =>
        have hget : (pre ++ c :: rest)[pre.length]? = some c := by
          rw [List.getElem?_append_right (le_refl _)]
          simp
        refine ⟨(c == 32 || c == 64), by rw [hget], ?_⟩
        simp
    · rw [if_neg hp]
      refine ⟨false, rfl, ?_⟩
      simp only [Bool.false_eq_true, false_iff, not_or, not_exists, not_and]
      refine ⟨he, ?_⟩
      intro c rest hstr
      exact absurd ((hasPrefix_iff _ _).2 ⟨c :: rest, hstr⟩) hp

/-! ## Level-up announcements -/

/-- C10, as stated, fails at the minimum 64-bit score: with the thresholds 0 and
50 the score `-2^63` is the threshold of no level, yet `oldScore` wraps around
to `2^63 - 1`, the two levels differ and an announcement is triggered.  The
score is reachable: a member at `-2^63` stays there when 1 is added (the sum
rounds back), and a plain message of that member is answered with an
announcement. -/
theorem levelChanged_at_minInt64 :
    (levels0_50.map level.XP).Pairwise (· < ·) ∧
    wrapInt64 (int64OfScore minInt64 - 1) = maxInt64 ∧
    (handlerOf levels0_50 []).levelChanged minInt64 = some true ∧
    (¬ ∃ l ∈ levels0_50.dropLast, l.XP = minInt64) ∧
    ((handlerOf levels0_50 []).processMsg (stateOf [(ascii "dave", minInt64)]) daveMsg).map
      (fun s => (zscore (s.db.sets (getXPKey 5)) (ascii "dave"), s.sent.length)) =
      some (some minInt64, 1) := by
  decide

/-- C10 (amended): for a non-empty level list with strictly ascending thresholds
and every post-increment score `s` above the minimum 64-bit value, the test of
`incrementXP` is defined and signals a level change if and only if `s` is the
threshold of some level other than the last one.  Reaching the threshold of
the last level signals none, and at most (number of levels - 1) distinct
scores signal one. -/
theorem levelChanged_iff_threshold (h : handler) (hne : h.config.Levels ≠ [])
    (hasc : (h.config.Levels.map level.XP).Pairwise (· < ·)) :
    (∀ s, minInt64 < s → s ≤ maxInt64 →
      ∃ b, h.levelChanged s = some b ∧ (b = true ↔ ∃ l ∈ h.config.Levels.dropLast, l.XP = s)) ∧
    (∀ l, h.config.Levels.getLast? = some l → minInt64 < l.XP → l.XP ≤ maxInt64 →
      h.levelChanged l.XP = some false) ∧
    (∀ S : Finset Int, (∀ s ∈ S, minInt64 < s ∧ s ≤ maxInt64 ∧ h.levelChanged s = some true) →
      S.card ≤ h.config.Levels.length - 1) := by
  have key : ∀ s, minInt64 < s → s ≤ maxInt64 →
      ∃ b, h.levelChanged s = some b ∧ (b = true ↔ ∃ l ∈ h.config.Levels.dropLast, l.XP = s) := by
    intro s h1 h2
    refine ⟨_, levelChanged_eq h hne s h1 h2, ?_⟩
    rw [decide_eq_true_iff]
    exact scan_step_iff h.config.Levels hasc 0 s
  refine ⟨key, ?_, ?_⟩
  · intro l hl h1 h2
    obtain ⟨b, hb, hiff⟩ := key l.XP h1 h2
    rw [hb]
    cases b with
    | false => rfl
    | true =>
      exfalso
      obtain ⟨l1, hl1, he⟩ := hiff.1 rfl
      have hsplit : h.config.Levels = h.config.Levels.dropLast ++ [l] :=
        (List.dropLast_append_getLast? l hl).symm
      rw [hsplit, List.map_append, List.pairwise_append] at hasc
      have := hasc.2.2 l1.XP (List.mem_map_of_mem _ hl1) l.XP (by simp)
      omega
  · intro S hS
    have hsub : S ⊆ (h.config.Levels.dropLast.map level.XP).toFinset := by
      intro s hs
      obtain ⟨h1, h2, h3⟩ := hS s hs
      obtain ⟨b, hb, hiff⟩ := key s h1 h2
      rw [h3] at hb
      have hbt : b = true := (Option.some.inj hb).symm
      obtain ⟨l, hl, he⟩ := hiff.1 hbt
      rw [List.mem_toFinset]
      exact List.mem_map.2 ⟨l, hl, he⟩
    calc S.card ≤ (h.config.Levels.dropLast.map level.XP).toFinset.card := Finset.card_le_card hsub
      _ ≤ (h.config.Levels.dropLast.map level.XP).length := List.toFinset_card_le _
      _ = h.config.Levels.length - 1 := by simp

/-- With the thresholds 0, 50, 150: the score 50 signals a level change, the
scores 49, 51 and 150 do not. -/
theorem levelChanged_iff_threshold_witness :
    (handlerOf levels0_50_150 []).config.Levels ≠ [] ∧
    ((handlerOf levels0_50_150 []).config.Levels.map level.XP).Pairwise (· < ·) ∧
    ((∀ s, minInt64 < s → s ≤ maxInt64 →
      ∃ b, (handlerOf levels0_50_150 []).levelChanged s = some b ∧
        (b = true ↔ ∃ l ∈ (handlerOf levels0_50_150 []).config.Levels.dropLast, l.XP = s)) ∧
    (∀ l, (handlerOf levels0_50_150 []).config.Levels.getLast? = some l → minInt64 < l.XP → l.XP ≤ maxInt64 →
      (handlerOf levels0_50_150 []).levelChanged l.XP = some false) ∧
    (∀ S : Finset Int, (∀ s ∈ S, minInt64 < s ∧ s ≤ maxInt64 ∧
        (handlerOf levels0_50_150 []).levelChanged s = some true) →
      S.card ≤ (handlerOf levels0_50_150 []).config.Levels.length - 1)) ∧
    (handlerOf levels0_50_150 []).levelChanged 50 = some true ∧
    (handlerOf levels0_50_150 []).levelChanged 49 = some false ∧
    (handlerOf levels0_50_150 []).levelChanged 51 = some false ∧
    (handlerOf levels0_50_150 []).levelChanged 150 = some false :=
  ⟨by decide, by decide,
    levelChanged_iff_threshold (handlerOf levels0_50_150 []) (by decide) (by decide),
    by decide, by decide, by decide, by decide⟩


/-! ## Lemmas on the handlers -/

theorem isCommand_total (str pre : GoString) : ∃ b, isCommand str pre = some b := by
  unfold isCommand
  by_cases he : str = pre
  · exact ⟨true, by simp [he]⟩
  · rw [if_neg he]
    by_cases hp : hasPrefix str pre = true
    · rw [if_pos hp]
      obtain ⟨rest, rfl⟩ := (hasPrefix_iff _ _).1 hp
      cases rest with
      | nil => simp at he
      | cons c rest =>
        have hget : (pre ++ c :: rest)[pre.length]? = some c := by
          rw [List.getElem?_append_right (le_refl _)]
          simp
        exact ⟨_, by rw [hget]⟩
    · rw [if_neg hp]
      exact ⟨false, rfl⟩

theorem roundDouble_exact (x : Int) (hx : exactDouble x) : roundDouble x = x := by
  obtain ⟨h1, h2⟩ := hx
  unfold roundDouble
  by_cases hs : x.natAbs < 9007199254740992
  · rw [if_pos hs]
  · have hcase : x = 9007199254740992 ∨ x = -9007199254740992 := by omega
    rcases hcase with rfl | rfl <;> decide

theorem zscore_zincrby_self (z : ZSet) (d : Int) (m : GoString) :
    zscore (zincrby z d m).1 m = some (zincrby z d m).2 := by
  induction z with
  | nil => simp [zincrby, zscore]
  | cons e z ih =>
    obtain ⟨k, v⟩ := e
    by_cases hk : k = m
    · simp [zincrby, zscore, hk]
    · simp [zincrby, zscore, hk, ih]

theorem zincrby_snd (z : ZSet) (d : Int) (m : GoString)
    (hd : exactDouble ((zscore z m).getD 0 + d)) :
    (zincrby z d m).2 = (zscore z m).getD 0 + d := by
  induction z with
  | nil => simp [zincrby, zscore]
  | cons e z ih =>
    obtain ⟨k, v⟩ := e
    by_cases hk : k = m
    · simp only [zscore, hk, if_true, Option.getD_some] at hd
      simp [zincrby, zscore, hk, roundDouble_exact _ hd]
    · simp only [zscore, hk, if_false] at hd
      simp [zincrby, zscore, hk, ih hd]

theorem zscore_zincrby_other (z : ZSet) (d : Int) (m m1 : GoString) (hne : m1 ≠ m) :
    zscore (zincrby z d m).1 m1 = zscore z m1 := by
  induction z with
  | nil => simp [zincrby, zscore, Ne.symm hne]
  | cons e z ih =>
    obtain ⟨k, v⟩ := e
    by_cases hk : k = m
    · subst hk
      simp [zincrby, zscore, Ne.symm hne]
    · by_cases hk1 : k = m1
      · subst hk1
        simp [zincrby, zscore, hne]
      · simp [zincrby, zscore, hk, hk1, ih]

theorem zscore_some_mem (z : ZSet) (m : GoString) (v : Int) (h : zscore z m = some v) :
    (m, v) ∈ z := by
  induction z with
  | nil => simp [zscore] at h
  | cons e z ih =>
    obtain ⟨k, w⟩ := e
    by_cases hk : k = m
    · simp [zscore, hk] at h
      simp [hk, h]
    · simp [zscore, hk] at h
      exact List.mem_cons_of_mem _ (ih h)

theorem zRev_perm (z : ZSet) : (zRev z).Perm z := List.perm_insertionSort _ z

theorem zrevrank_some (z : ZSet) (m : GoString) (v : Int) (h : zscore z m = some v) :
    ∃ r, zrevrank z m = some r := by
  unfold zrevrank
  cases hf : List.findIdx? (fun e => decide (e.1 = m)) (zRev z) with
  | some r => exact ⟨r, rfl⟩
  | none =>
    exfalso
    rw [List.findIdx?_eq_none_iff] at hf
    have hmem : (m, v) ∈ zRev z := (zRev_perm z).mem_iff.2 (zscore_some_mem z m v h)
    simpa using hf _ hmem

theorem getLevel_total (h : handler) (xp : Int) (hne : h.config.Levels ≠ []) :
    ∃ r, h.getLevel xp = some r := by
  obtain ⟨l, hl⟩ := getLevel_fst h xp hne
  exact ⟨_, hl⟩

theorem levelChanged_total (h : handler) (s : Int) (hne : h.config.Levels ≠ []) :
    ∃ b, h.levelChanged s = some b := by
  unfold handler.levelChanged
  obtain ⟨r1, e1⟩ := getLevel_total h (wrapInt64 (int64OfScore s - 1)) hne
  obtain ⟨r2, e2⟩ := getLevel_total h (int64OfScore s) hne
  rw [e1, e2]
  exact ⟨_, rfl⟩

theorem printXP_db (h : handler) (st : State) (username : GoString) (chatID msgID : Int)
    (hne : h.config.Levels ≠ []) :
    ∃ st1, h.printXP st username chatID msgID = some st1 ∧ st1.db = st.db := by
  unfold handler.printXP
  cases hg : h.getScore st.db username chatID with
  | error e =>
    cases e with
    | Nil => exact ⟨st, rfl, rfl⟩
    | io => exact ⟨_, rfl, rfl⟩
  | ok r =>
    obtain ⟨xp, rank, total⟩ := r
    obtain ⟨lvl, hl⟩ := getLevel_total h xp hne
    simp only [hl]
    split
    · exact ⟨_, rfl, rfl⟩
    · exact ⟨_, rfl, rfl⟩

theorem Store.put_sets_self (db : Store) (key : GoString) (z : ZSet) : (db.put key z).sets key = z := by
  simp [Store.put]

theorem Store.put_down (db : Store) (key : GoString) (z : ZSet) : (db.put key z).down = db.down := rfl

theorem incrementXP_score (h : handler) (st : State) (u : User) (chatID : Int)
    (hne : h.config.Levels ≠ []) (hup : st.db.down = false)
    (hex : exactDouble ((zscore (st.db.sets (getXPKey chatID)) u.UserName).getD 0 + 1)) :
    ∃ st1, h.incrementXP st (some u) chatID = some st1 ∧
      zscore (st1.db.sets (getXPKey chatID)) u.UserName =
        some ((zscore (st.db.sets (getXPKey chatID)) u.UserName).getD 0 + 1) := by
  have hone : float64OfInt64 1 = 1 := by decide
  have hz := zscore_zincrby_self (st.db.sets (getXPKey chatID)) 1 u.UserName
  rw [zincrby_snd _ _ _ hex] at hz
  unfold handler.incrementXP
  simp only [Store.ZIncrBy, hup, Bool.false_eq_true, if_false, hone]
  obtain ⟨b, hb⟩ := levelChanged_total h (zincrby (st.db.sets (getXPKey chatID)) 1 u.UserName).2 hne
  rw [hb]
  cases b with
  | false =>
    exact ⟨_, rfl, by simp [hz, Store.put_sets_self]⟩
  | true =>
    obtain ⟨st1, h1, h2⟩ := printXP_db h
      { st with db := (st.db.put (getXPKey chatID) (zincrby (st.db.sets (getXPKey chatID)) 1 u.UserName).1) }
      u.UserName chatID 0 hne
    exact ⟨st1, h1, by rw [h2]; simp [hz, Store.put_sets_self]⟩

theorem splitN_two_none (s : GoString) (hs : 32 ∉ s) : splitN s 32 2 = [s] := by
  have hc := (cut_eq_none s 32).2 hs
  show splitN s 32 (0 + 2) = [s]
  simp [splitN, hc]

theorem splitN_two_some (a b : GoString) (ha : 32 ∉ a) : splitN (a ++ 32 :: b) 32 2 = [a, b] := by
  have hc := cut_append a b 32 ha
  show splitN (a ++ 32 :: b) 32 (0 + 2) = [a, b]
  simp [splitN, hc]

theorem splitN_three (a b c : GoString) (ha : 32 ∉ a) (hb : 32 ∉ b) :
    splitN (a ++ 32 :: (b ++ 32 :: c)) 32 3 = [a, b, c] := by
  have hc := cut_append a (b ++ 32 :: c) 32 ha
  have hc2 := cut_append b c 32 hb
  show splitN (a ++ 32 :: (b ++ 32 :: c)) 32 (1 + 2) = [a, b, c]
  simp [splitN, hc, hc2]

theorem splitN_three_short (s : GoString) (hs : s.count 32 < 2) :
    (∃ x, splitN s 32 3 = [x]) ∨ (∃ x y, splitN s 32 3 = [x, y]) := by
  show (∃ x, splitN s 32 (1 + 2) = [x]) ∨ (∃ x y, splitN s 32 (1 + 2) = [x, y])
  cases hc : cut s 32 with
  | none => exact Or.inl ⟨s, by simp [splitN, hc]⟩
  | some p =>
    obtain ⟨a, b⟩ := p
    obtain ⟨rfl, ha⟩ := cut_some s a b 32 hc
    have hb : 32 ∉ b := by
      intro hmem
      have h1 : 0 < List.count 32 b := List.count_pos_iff.2 hmem
      simp only [List.count_append, List.count_cons_self] at hs
      omega
    have hc2 := (cut_eq_none b 32).2 hb
    exact Or.inr ⟨a, b, by simp [splitN, hc, hc2]⟩

theorem admins_any (admins : List GoString) (u : GoString) :
    (admins.any (fun a => decide (a = u))) = true ↔ u ∈ admins := by
  simp [List.any_eq_true]

/-! ## The admin grant -/

/-- C4: whatever the invocation text, when the sender is not in the admin list
`giveXP` leaves Redis untouched and hands exactly one message to the
transport, the configured not-an-admin text as a reply to the invocation. -/
theorem giveXP_not_admin (h : handler) (st : State) (invoc : GoString) (chatID : Int)
    (fromUsername : GoString) (msgID : Int) (hna : fromUsername ∉ h.config.Admins) :
    ∃ st1, h.giveXP st invoc chatID fromUsername msgID = some st1 ∧ st1.db = st.db ∧
      st1.logged = st.logged ∧
      st1.sent = st.sent ++
        [{ ChatID := chatID, ReplyToMessageID := msgID, Text := h.config.NotAnAdmin,
           ParseMode := .ModeMarkdown, DisableWebPagePreview := true }] := by
  unfold handler.giveXP
  have hany : ¬ (h.config.Admins.any (fun a => decide (a = fromUsername))) = true :=
    fun hh => hna ((admins_any _ _).1 hh)
  rw [if_pos hany]
  exact ⟨_, rfl, rfl, rfl, rfl⟩

/-- A well-formed grant sent by somebody who is not an admin: bob keeps his 20
points and the only outbound message is the refusal. -/
theorem giveXP_not_admin_witness :
    ascii "mallory" ∉ (handlerOf levels0_50 [ascii "root"]).config.Admins ∧
    (∃ st1, (handlerOf levels0_50 [ascii "root"]).giveXP (stateOf [(ascii "bob", 20)])
        (ascii "/givexp @bob 100") 5 (ascii "mallory") 7 = some st1 ∧
      st1.db = (stateOf [(ascii "bob", 20)]).db ∧
      st1.logged = (stateOf [(ascii "bob", 20)]).logged ∧
      st1.sent = (stateOf [(ascii "bob", 20)]).sent ++
        [{ ChatID := 5, ReplyToMessageID := 7,
           Text := (handlerOf levels0_50 [ascii "root"]).config.NotAnAdmin,
           ParseMode := .ModeMarkdown, DisableWebPagePreview := true }]) :=
  ⟨by decide,
    giveXP_not_admin (handlerOf levels0_50 [ascii "root"]) (stateOf [(ascii "bob", 20)])
      (ascii "/givexp @bob 100") 5 (ascii "mallory") 7 (by decide)⟩

/-- C6, as stated, fails for more than three tokens: the admin invocation
`/givexp bob 5 extra` has four tokens (three spaces), and `giveXP` answers
nothing at all, not the usage hint; the scores are untouched. -/
theorem giveXP_four_tokens_silent :
    ascii "root" ∈ (handlerOf levels0_50 [ascii "root"]).config.Admins ∧
    (ascii "/givexp bob 5 extra").count 32 = 3 ∧
    ((handlerOf levels0_50 [ascii "root"]).giveXP (stateOf [(ascii "bob", 20)])
        (ascii "/givexp bob 5 extra") 5 (ascii "root") 7).map
      (fun s => (s.sent, s.db.sets (getXPKey 5))) = some ([], [(ascii "bob", 20)]) := by
  decide

/-- C6 (amended): for an admin sender, an invocation with fewer than two spaces
(fewer than three space-separated parts) is answered with the usage hint, as a
reply, and Redis is untouched; an invocation that has a second space and whose
text after the second space does not parse as a signed 64-bit integer, which
includes every invocation with more than three tokens, changes nothing: no
reply, no score change. -/
theorem giveXP_malformed (h : handler) (st : State) (invoc : GoString) (chatID : Int)
    (fromUsername : GoString) (msgID : Int) (hadm : fromUsername ∈ h.config.Admins) :
    (invoc.count 32 < 2 →
      ∃ st1, h.giveXP st invoc chatID fromUsername msgID = some st1 ∧ st1.db = st.db ∧
        st1.sent = st.sent ++
          [{ ChatID := chatID, ReplyToMessageID := msgID,
             Text := ascii "Usage: " ++ [96] ++ ascii "/givexp @terorie 123" ++ [96],
             ParseMode := .ModeMarkdown, DisableWebPagePreview := true }]) ∧
    (∀ a b c : GoString, 32 ∉ a → 32 ∉ b → invoc = a ++ 32 :: (b ++ 32 :: c) → parseInt c = none →
      h.giveXP st invoc chatID fromUsername msgID = some st) := by
  have hany : ¬ ¬ (h.config.Admins.any (fun a => decide (a = fromUsername))) = true :=
    fun hh => hh ((admins_any _ _).2 hadm)
  constructor
  · intro hcount
    unfold handler.giveXP
    rw [if_neg hany]
    rcases splitN_three_short invoc hcount with ⟨x, hx⟩ | ⟨x, y, hxy⟩
    · rw [hx]
      exact ⟨_, rfl, rfl, rfl⟩
    · rw [hxy]
      exact ⟨_, rfl, rfl, rfl⟩
  · intro a b c ha hb hinv hparse
    unfold handler.giveXP
    rw [if_neg hany, hinv, splitN_three a b c ha hb]
    simp only [hparse]

/-- An admin sends `/givexp bob` (usage hint) and `/givexp bob five` (nothing). -/
theorem giveXP_malformed_witness :
    ascii "root" ∈ (handlerOf levels0_50 [ascii "root"]).config.Admins ∧
    (ascii "/givexp bob").count 32 < 2 ∧
    (∃ st1, (handlerOf levels0_50 [ascii "root"]).giveXP (stateOf [(ascii "bob", 20)])
        (ascii "/givexp bob") 5 (ascii "root") 7 = some st1 ∧
      st1.db = (stateOf [(ascii "bob", 20)]).db ∧
      st1.sent = (stateOf [(ascii "bob", 20)]).sent ++
        [{ ChatID := 5, ReplyToMessageID := 7,
           Text := ascii "Usage: " ++ [96] ++ ascii "/givexp @terorie 123" ++ [96],
           ParseMode := .ModeMarkdown, DisableWebPagePreview := true }]) ∧
    (32 ∉ ascii "/givexp" ∧ 32 ∉ ascii "bob" ∧ parseInt (ascii "five") = none ∧
      (handlerOf levels0_50 [ascii "root"]).giveXP (stateOf [(ascii "bob", 20)])
        (ascii "/givexp" ++ 32 :: (ascii "bob" ++ 32 :: ascii "five")) 5 (ascii "root") 7 =
        some (stateOf [(ascii "bob", 20)])) :=
  ⟨by decide, by decide,
    (giveXP_malformed (handlerOf levels0_50 [ascii "root"]) (stateOf [(ascii "bob", 20)])
      (ascii "/givexp bob") 5 (ascii "root") 7 (by decide)).1 (by decide),
    by decide, by decide, by decide,
    (giveXP_malformed (handlerOf levels0_50 [ascii "root"]) (stateOf [(ascii "bob", 20)])
      (ascii "/givexp" ++ 32 :: (ascii "bob" ++ 32 :: ascii "five")) 5 (ascii "root") 7 (by decide)).2
      (ascii "/givexp") (ascii "bob") (ascii "five") (by decide) (by decide) rfl (by decide)⟩

/-! ## Dispatch -/

theorem trimPrefix_at_cons (x : GoString) : trimPrefix (64 :: x) (ascii "@") = x :=
  trimPrefix_append [64] x

theorem trimPrefix_at_other (x : GoString) (hx : x.head? ≠ some 64) : trimPrefix x (ascii "@") = x := by
  unfold trimPrefix
  have hp : ¬ hasPrefix x (ascii "@") = true := by
    intro hh
    obtain ⟨rest, rfl⟩ := (hasPrefix_iff _ _).1 hh
    exact hx rfl
  rw [if_neg hp]

/-- C8: for a text recognised as the `/xp` command, `handleMsg` starts exactly one
goroutine, the XP query, for the sender when the text contains no space (as
`/xp` and `/xp@thisbot`), and otherwise for the text after the first space with
one leading `@` removed: `/xp @bob` and `/xp bob` both query `bob`. -/
theorem handleMsg_xp_target (msg : Message) (hx : isCommand msg.Text (ascii "/xp") = some true) :
    (32 ∉ msg.Text → ∀ u, msg.From = some u →
      handleMsg msg = some [Task.printXP u.UserName msg.ChatID msg.MessageID]) ∧
    (∀ cmd arg : GoString, 32 ∉ cmd → msg.Text = cmd ++ 32 :: arg →
      handleMsg msg = some [Task.printXP (trimPrefix arg (ascii "@")) msg.ChatID msg.MessageID]) ∧
    (∀ x : GoString, trimPrefix (64 :: x) (ascii "@") = x) ∧
    (∀ x : GoString, x.head? ≠ some 64 → trimPrefix x (ascii "@") = x) := by
  refine ⟨?_, ?_, trimPrefix_at_cons, trimPrefix_at_other⟩
  · intro hs u hu
    unfold handleMsg
    simp [hx, splitN_two_none msg.Text hs, hu]
  · intro cmd arg hcmd htext
    unfold handleMsg
    rw [hx]
    simp [htext, splitN_two_some cmd arg hcmd]

/-- The sender dave asks with `/xp`, `/xp@thisbot`, `/xp @bob` and `/xp bob`. -/
theorem handleMsg_xp_target_witness :
    isCommand (ascii "/xp@thisbot") (ascii "/xp") = some true ∧
    ((32 ∉ ascii "/xp@thisbot" → ∀ u, some (User.mk (ascii "dave")) = some u →
      handleMsg ⟨7, some ⟨ascii "dave"⟩, 5, ascii "/xp@thisbot"⟩ = some [Task.printXP u.UserName 5 7]) ∧
    (∀ cmd arg : GoString, 32 ∉ cmd → ascii "/xp@thisbot" = cmd ++ 32 :: arg →
      handleMsg ⟨7, some ⟨ascii "dave"⟩, 5, ascii "/xp@thisbot"⟩ =
        some [Task.printXP (trimPrefix arg (ascii "@")) 5 7]) ∧
    (∀ x : GoString, trimPrefix (64 :: x) (ascii "@") = x) ∧
    (∀ x : GoString, x.head? ≠ some 64 → trimPrefix x (ascii "@") = x)) ∧
    handleMsg ⟨7, some ⟨ascii "dave"⟩, 5, ascii "/xp"⟩ = some [Task.printXP (ascii "dave") 5 7] ∧
    handleMsg ⟨7, some ⟨ascii "dave"⟩, 5, ascii "/xp@thisbot"⟩ = some [Task.printXP (ascii "dave") 5 7] ∧
    handleMsg ⟨7, some ⟨ascii "dave"⟩, 5, ascii "/xp @bob"⟩ = some [Task.printXP (ascii "bob") 5 7] ∧
    handleMsg ⟨7, some ⟨ascii "dave"⟩, 5, ascii "/xp bob"⟩ = some [Task.printXP (ascii "bob") 5 7] :=
  ⟨by decide, handleMsg_xp_target ⟨7, some ⟨ascii "dave"⟩, 5, ascii "/xp@thisbot"⟩ (by decide),
    by decide, by decide, by decide, by decide⟩

/-- C3, as stated, fails for `/xp`: a message with a sender whose text is the `/xp`
command starts the XP query only; `handleMsg` returns before the statement that
starts `incrementXP`, and handling the message leaves the sender's score as it
was.  (Besides, a score of `2^53` is a double that `+1` cannot raise.) -/
theorem handleMsg_xp_no_increment :
    ¬ (∀ (msg : Message) (u : User), msg.From = some u →
        ∃ ts, handleMsg msg = some ts ∧ Task.incrementXP (some u) msg.ChatID ∈ ts) ∧
    handleMsg ⟨7, some ⟨ascii "dave"⟩, 5, ascii "/xp"⟩ = some [Task.printXP (ascii "dave") 5 7] ∧
    ((handlerOf levels0_50 []).processMsg (stateOf [(ascii "dave", 20)])
        ⟨7, some ⟨ascii "dave"⟩, 5, ascii "/xp"⟩).map
      (fun s => zscore (s.db.sets (getXPKey 5)) (ascii "dave")) = some (some 20) ∧
    ((handlerOf levels0_50 []).processMsg (stateOf [(ascii "dave", 9007199254740992)])
        ⟨7, some ⟨ascii "dave"⟩, 5, ascii "hello"⟩).map
      (fun s => zscore (s.db.sets (getXPKey 5)) (ascii "dave")) = some (some 9007199254740992) := by
  refine ⟨?_, by decide, by decide, by decide⟩
  intro hall
  obtain ⟨ts, h1, h2⟩ := hall ⟨7, some ⟨ascii "dave"⟩, 5, ascii "/xp"⟩ ⟨ascii "dave"⟩ rfl
  have h3 : handleMsg ⟨7, some ⟨ascii "dave"⟩, 5, ascii "/xp"⟩ = some [Task.printXP (ascii "dave") 5 7] := by
    decide
  rw [h3] at h1
  cases h1
  simp at h2

/-- C3 (amended): for every inbound message that has a sender and whose text is
not recognised as the `/xp` command (plain text, `/givexp`, `/ranks`),
`handleMsg` starts `incrementXP` for the sender in the chat of the message, as
its last goroutine, after the command handler if there is one; and with a
reachable Redis, a non-empty level list and a score that stays within
`2^53`, `incrementXP` ends with the sender's score in that chat exactly one
higher (1 when the sender had none). -/
theorem handleMsg_increments (msg : Message) (u : User) (hu : msg.From = some u)
    (hx : isCommand msg.Text (ascii "/xp") = some false) :
    (∃ ts, handleMsg msg = some (ts ++ [Task.incrementXP (some u) msg.ChatID]) ∧
      ts = (if isCommand msg.Text (ascii "/givexp") = some true
              then [Task.giveXP msg.Text msg.ChatID u.UserName msg.MessageID] else []) ++
           (if isCommand msg.Text (ascii "/ranks") = some true then [Task.ranks msg.ChatID] else [])) ∧
    (∀ (h : handler) (st : State), h.config.Levels ≠ [] → st.db.down = false →
      exactDouble ((zscore (st.db.sets (getXPKey msg.ChatID)) u.UserName).getD 0 + 1) →
      ∃ st1, h.runTask st (Task.incrementXP (some u) msg.ChatID) = some st1 ∧
        zscore (st1.db.sets (getXPKey msg.ChatID)) u.UserName =
          some ((zscore (st.db.sets (getXPKey msg.ChatID)) u.UserName).getD 0 + 1)) := by
  constructor
  · obtain ⟨g, hg⟩ := isCommand_total msg.Text (ascii "/givexp")
    obtain ⟨r, hr⟩ := isCommand_total msg.Text (ascii "/ranks")
    unfold handleMsg
    rw [hx]
    simp only [hg, hr, hu]
    cases g <;> cases r <;> simp
  · intro h st hne hup hex
    exact incrementXP_score h st u msg.ChatID hne hup hex

/-- The sender dave writes `hello`, `/givexp bob 5` and `/ranks`: each time
`incrementXP` is started, and running it takes dave from 20 to 21. -/
theorem handleMsg_increments_witness :
    some (User.mk (ascii "dave")) = some ⟨ascii "dave"⟩ ∧
    isCommand (ascii "/givexp bob 5") (ascii "/xp") = some false ∧
    ((∃ ts, handleMsg ⟨7, some ⟨ascii "dave"⟩, 5, ascii "/givexp bob 5"⟩ =
        some (ts ++ [Task.incrementXP (some ⟨ascii "dave"⟩) 5]) ∧
      ts = (if isCommand (ascii "/givexp bob 5") (ascii "/givexp") = some true
              then [Task.giveXP (ascii "/givexp bob 5") 5 (ascii "dave") 7] else []) ++
           (if isCommand (ascii "/givexp bob 5") (ascii "/ranks") = some true then [Task.ranks 5] else [])) ∧
    (∀ (h : handler) (st : State), h.config.Levels ≠ [] → st.db.down = false →
      exactDouble ((zscore (st.db.sets (getXPKey 5)) (ascii "dave")).getD 0 + 1) →
      ∃ st1, h.runTask st (Task.incrementXP (some ⟨ascii "dave"⟩) 5) = some st1 ∧
        zscore (st1.db.sets (getXPKey 5)) (ascii "dave") =
          some ((zscore (st.db.sets (getXPKey 5)) (ascii "dave")).getD 0 + 1))) ∧
    handleMsg ⟨7, some ⟨ascii "dave"⟩, 5, ascii "hello"⟩ =
      some [Task.incrementXP (some ⟨ascii "dave"⟩) 5] ∧
    handleMsg ⟨7, some ⟨ascii "dave"⟩, 5, ascii "/givexp bob 5"⟩ =
      some [Task.giveXP (ascii "/givexp bob 5") 5 (ascii "dave") 7, Task.incrementXP (some ⟨ascii "dave"⟩) 5] ∧
    handleMsg ⟨7, some ⟨ascii "dave"⟩, 5, ascii "/ranks"⟩ =
      some [Task.ranks 5, Task.incrementXP (some ⟨ascii "dave"⟩) 5] ∧
    ((handlerOf levels0_50 []).processMsg (stateOf [(ascii "dave", 20)])
        ⟨7, some ⟨ascii "dave"⟩, 5, ascii "hello"⟩).map
      (fun s => zscore (s.db.sets (getXPKey 5)) (ascii "dave")) = some (some 21) :=
  ⟨rfl, by decide,
    handleMsg_increments ⟨7, some ⟨ascii "dave"⟩, 5, ascii "/givexp bob 5"⟩ ⟨ascii "dave"⟩ rfl (by decide),
    by decide, by decide, by decide, by decide⟩

/-! ## Decimal rendering and parsing -/

theorem digitsFuel_acc (fuel n : Nat) (acc : GoString) :
    digitsFuel fuel n acc = digitsFuel fuel n [] ++ acc := by
  induction fuel generalizing n acc with
  | zero => simp [digitsFuel]
  | succ fuel ih =>
    unfold digitsFuel
    by_cases hn : n < 10
    · simp [hn]
    · simp only [hn, if_false]
      rw [ih (n / 10) ((48 + n % 10) :: acc), ih (n / 10) [48 + n % 10]]
      simp

theorem digitsVal_append (xs ys : GoString) (a : Nat) :
    digitsVal (xs ++ ys) a = (digitsVal xs a).bind (digitsVal ys) := by
  induction xs generalizing a with
  | nil => simp [digitsVal]
  | cons c cs ih =>
    by_cases hc : 48 ≤ c ∧ c ≤ 57
    · simp [digitsVal, hc, ih]
    · simp [digitsVal, hc]

theorem digitsVal_digitsFuel (fuel n : Nat) (h : n < fuel) :
    digitsVal (digitsFuel fuel n []) 0 = some n := by
  induction fuel generalizing n with
  | zero => omega
  | succ fuel ih =>
    unfold digitsFuel
    by_cases hn : n < 10
    · have h2 : 48 + n ≤ 57 := by omega
      simp [hn, digitsVal, h2]
    · simp only [hn, if_false]
      rw [digitsFuel_acc, digitsVal_append, ih (n / 10) (by omega)]
      have h1 : 48 + n % 10 ≤ 57 := by omega
      simp only [Option.some_bind, digitsVal, h1, Nat.le_add_right, and_self, if_true,
        Option.some.injEq]
      omega

theorem digitsFuel_digits (fuel n : Nat) (acc : GoString) (hacc : ∀ c ∈ acc, 48 ≤ c ∧ c ≤ 57) :
    ∀ c ∈ digitsFuel fuel n acc, 48 ≤ c ∧ c ≤ 57 := by
  induction fuel generalizing n acc with
  | zero => simpa [digitsFuel] using hacc
  | succ fuel ih =>
    unfold digitsFuel
    by_cases hn : n < 10
    · simp only [hn, if_true, List.mem_cons]
      rintro c (rfl | hc)
      · omega
      · exact hacc c hc
    · simp only [hn, if_false]
      apply ih
      simp only [List.mem_cons]
      rintro c (rfl | hc)
      · omega
      · exact hacc c hc

theorem formatUint_cons (n : Nat) : ∃ c cs, formatUint n = c :: cs ∧ 48 ≤ c ∧ c ≤ 57 := by
  have hd := digitsFuel_digits (n + 1) n [] (by simp)
  have hv := digitsVal_digitsFuel (n + 1) n (by omega)
  unfold formatUint
  cases hf : digitsFuel (n + 1) n [] with
  | nil =>
    exfalso
    have hne : digitsFuel (n + 1) n [] ≠ [] := by
      unfold digitsFuel
      by_cases hn : n < 10
      · simp [hn]
      · simp only [hn, if_false]
        rw [digitsFuel_acc]
        simp
    exact hne hf
  | cons c cs =>
    rw [hf] at hd
    exact ⟨c, cs, rfl, hd c (by simp)⟩

theorem parseInt_formatInt (a : Int) (ha : inInt64 a) : parseInt (formatInt a) = some a := by
  obtain ⟨h1, h2⟩ := ha
  unfold minInt64 at h1
  unfold maxInt64 at h2
  unfold formatInt
  by_cases hneg : a < 0
  · rw [if_pos hneg]
    obtain ⟨c, cs, hf, _, _⟩ := formatUint_cons a.natAbs
    have hv : digitsVal (formatUint a.natAbs) 0 = some a.natAbs :=
      digitsVal_digitsFuel (a.natAbs + 1) a.natAbs (by omega)
    have hle : ¬ a.natAbs > 9223372036854775808 := by omega
    have hne : formatUint a.natAbs ≠ [] := by simp [hf]
    simp only [parseInt, true_or, or_true, if_true, hne, if_false, hv, hle, Option.some.injEq]
    omega
  · rw [if_neg hneg]
    obtain ⟨c, cs, hf, hc1, hc2⟩ := formatUint_cons a.toNat
    have hv : digitsVal (formatUint a.toNat) 0 = some a.toNat :=
      digitsVal_digitsFuel (a.toNat + 1) a.toNat (by omega)
    rw [hf] at hv
    have hc43 : ¬ c = 43 := by omega
    have hc45 : ¬ c = 45 := by omega
    have hlt : ¬ a.toNat ≥ 9223372036854775808 := by omega
    rw [hf]
    simp only [parseInt, hc43, hc45, or_self, if_false, hv, hlt, Option.some.injEq]
    simp only [reduceCtorEq, if_false, Option.some.injEq]
    omega

theorem printXP_present (h : handler) (st : State) (username : GoString) (chatID msgID : Int)
    (v : Int) (r : Nat) (lvl : Nat × level) (hup : st.db.down = false)
    (hz : zscore (st.db.sets (getXPKey chatID)) username = some v)
    (hr : zrevrank (st.db.sets (getXPKey chatID)) username = some r)
    (hl : h.getLevel (int64OfScore v) = some lvl) :
    ∃ st1, h.printXP st username chatID msgID = some st1 ∧ st1.db = st.db ∧
      st1.sent = st.sent ++
        [{ ChatID := chatID, ReplyToMessageID := msgID,
           Text := h.formatTitle lvl.2 username (int64OfScore v) ((r : Int) + 1)
             ((st.db.sets (getXPKey chatID)).length : Int),
           ParseMode := .ModeHTML, DisableWebPagePreview := true }] := by
  unfold handler.printXP handler.getScore
  simp only [hup, Bool.false_eq_true, if_false, hz, hr, hl]
  split
  · exact ⟨_, rfl, rfl, rfl⟩
  · exact ⟨_, rfl, rfl, rfl⟩

theorem exactDouble_inInt64 (x : Int) (hx : exactDouble x) : inInt64 x := by
  obtain ⟨h1, h2⟩ := hx
  unfold inInt64 minInt64 maxInt64
  constructor <;> omega

/-- C5, as stated, fails for large amounts: the amount travels as a `float64`,
so the admin invocation `/givexp bob 9007199254740993` (the amount is
`2^53 + 1`) gives the unscored bob `2^53` points, one less than the amount. -/
theorem giveXP_rounds_large_amount :
    ascii "root" ∈ (handlerOf levels0_50 [ascii "root"]).config.Admins ∧
    parseInt (ascii "9007199254740993") = some 9007199254740993 ∧
    inInt64 9007199254740993 ∧
    ((handlerOf levels0_50 [ascii "root"]).giveXP (stateOf [])
        (ascii "/givexp bob 9007199254740993") 5 (ascii "root") 7).map
      (fun s => zscore (s.db.sets (getXPKey 5)) (ascii "bob")) = some (some 9007199254740992) := by
  decide

/-- C5 (amended): for an admin sender, a target username (free of spaces and not
itself starting with `@`, as Telegram usernames are), written with or without
a leading `@`, and every amount written in decimal such that the amount and
the resulting score lie within `2^53` (where doubles are exact), the
invocation `/givexp <target> <amount>` makes `giveXP`, on a reachable Redis
and a non-empty level list, add exactly the amount to the score of the target
in that chat (starting from 0 when the target had none, with no lower bound
on the result), leave every other score of the chat alone, and then do what
`printXP` does for the target: one reply to the invocation with the title
formatted for the new score, the rank and the size of the leaderboard. -/
theorem giveXP_grant (h : handler) (st : State) (chatID : Int) (fromUsername : GoString)
    (msgID : Int) (target : GoString) (atPrefix : Bool) (amount : Int)
    (hadm : fromUsername ∈ h.config.Admins) (hsp : 32 ∉ target)
    (hat : atPrefix = false → target.head? ≠ some 64) (hamt : exactDouble amount)
    (hsum : exactDouble ((zscore (st.db.sets (getXPKey chatID)) target).getD 0 + amount))
    (hne : h.config.Levels ≠ []) (hup : st.db.down = false) :
    ∃ (st1 : State) (lvl : Nat × level) (rank : Nat),
      h.giveXP st
        (ascii "/givexp " ++ (if atPrefix then [64] else []) ++ target ++ [32] ++ formatInt amount)
        chatID fromUsername msgID = some st1 ∧
      zscore (st1.db.sets (getXPKey chatID)) target =
        some ((zscore (st.db.sets (getXPKey chatID)) target).getD 0 + amount) ∧
      (∀ m, m ≠ target →
        zscore (st1.db.sets (getXPKey chatID)) m = zscore (st.db.sets (getXPKey chatID)) m) ∧
      h.printXP { st with db := st1.db } target chatID msgID = some st1 ∧
      h.getLevel (int64OfScore ((zscore (st.db.sets (getXPKey chatID)) target).getD 0 + amount)) =
        some lvl ∧
      zrevrank (st1.db.sets (getXPKey chatID)) target = some rank ∧
      st1.sent = st.sent ++
        [{ ChatID := chatID, ReplyToMessageID := msgID,
           Text := h.formatTitle lvl.2 target
             (int64OfScore ((zscore (st.db.sets (getXPKey chatID)) target).getD 0 + amount))
             ((rank : Int) + 1) ((st1.db.sets (getXPKey chatID)).length : Int),
           ParseMode := .ModeHTML, DisableWebPagePreview := true }] := by
  have hany : ¬ ¬ (h.config.Admins.any (fun a => decide (a = fromUsername))) = true :=
    fun hh => hh ((admins_any _ _).2 hadm)
  have hinv : ascii "/givexp " ++ (if atPrefix then [64] else []) ++ target ++ [32] ++ formatInt amount =
      ascii "/givexp" ++ 32 :: (((if atPrefix then [64] else []) ++ target) ++ 32 :: formatInt amount) := by
    have : ascii "/givexp " = ascii "/givexp" ++ [32] := by decide
    rw [this]
    simp
  have hb : 32 ∉ (if atPrefix then [64] else []) ++ target := by
    cases atPrefix <;> simp [hsp]
  have htrim : trimPrefix ((if atPrefix then [64] else []) ++ target) (ascii "@") = target := by
    cases atPrefix with
    | false => simpa using trimPrefix_at_other target (hat rfl)
    | true => simpa using trimPrefix_at_cons target
  have hfl : float64OfInt64 amount = amount := roundDouble_exact amount hamt
  obtain ⟨lvl, hl⟩ := getLevel_total h
    (int64OfScore ((zscore (st.db.sets (getXPKey chatID)) target).getD 0 + amount)) hne
  have hz := zscore_zincrby_self (st.db.sets (getXPKey chatID)) amount target
  rw [zincrby_snd _ _ _ hsum] at hz
  obtain ⟨rank, hr⟩ := zrevrank_some _ _ _ hz
  obtain ⟨st1, hp, hdb, hsent⟩ := printXP_present h
    { st with db := (st.db.put (getXPKey chatID) (zincrby (st.db.sets (getXPKey chatID)) amount target).1) }
    target chatID msgID _ rank lvl hup (by simpa [Store.put_sets_self] using hz)
    (by simpa [Store.put_sets_self] using hr) hl
  have hsets : st1.db.sets (getXPKey chatID) =
      (zincrby (st.db.sets (getXPKey chatID)) amount target).1 := by
    rw [hdb]
    simp [Store.put_sets_self]
  refine ⟨st1, lvl, rank, ?_, ?_, ?_, ?_, hl, ?_, ?_⟩
  · unfold handler.giveXP
    rw [if_neg hany, hinv, splitN_three _ _ _ (by decide) hb]
    simp only [parseInt_formatInt amount (exactDouble_inInt64 amount hamt), htrim, hfl,
      Store.ZIncrBy, hup, Bool.false_eq_true, if_false]
    exact hp
  · rw [hsets]
    exact hz
  · intro m hm
    rw [hsets]
    exact zscore_zincrby_other _ _ _ _ hm
  · rw [hdb]
    exact hp
  · rw [hsets]
    exact hr
  · rw [hsent, hsets]
    simp [Store.put_sets_self]

/-- The admin root sends `/givexp @bob -50` while bob has 20 points: bob ends
at -30. -/
theorem giveXP_grant_witness :
    ascii "root" ∈ (handlerOf levels0_50 [ascii "root"]).config.Admins ∧ 32 ∉ ascii "bob" ∧
    (true = false → (ascii "bob").head? ≠ some 64) ∧ exactDouble (-50) ∧
    exactDouble ((zscore ((stateOf [(ascii "bob", 20)]).db.sets (getXPKey 5)) (ascii "bob")).getD 0 + (-50)) ∧
    (handlerOf levels0_50 [ascii "root"]).config.Levels ≠ [] ∧
    (stateOf [(ascii "bob", 20)]).db.down = false ∧
    (∃ (st1 : State) (lvl : Nat × level) (rank : Nat),
      (handlerOf levels0_50 [ascii "root"]).giveXP (stateOf [(ascii "bob", 20)])
        (ascii "/givexp " ++ (if true then [64] else []) ++ ascii "bob" ++ [32] ++ formatInt (-50))
        5 (ascii "root") 7 = some st1 ∧
      zscore (st1.db.sets (getXPKey 5)) (ascii "bob") =
        some ((zscore ((stateOf [(ascii "bob", 20)]).db.sets (getXPKey 5)) (ascii "bob")).getD 0 + (-50)) ∧
      (∀ m, m ≠ ascii "bob" →
        zscore (st1.db.sets (getXPKey 5)) m =
          zscore ((stateOf [(ascii "bob", 20)]).db.sets (getXPKey 5)) m) ∧
      (handlerOf levels0_50 [ascii "root"]).printXP { stateOf [(ascii "bob", 20)] with db := st1.db }
        (ascii "bob") 5 7 = some st1 ∧
      (handlerOf levels0_50 [ascii "root"]).getLevel (int64OfScore
        ((zscore ((stateOf [(ascii "bob", 20)]).db.sets (getXPKey 5)) (ascii "bob")).getD 0 + (-50))) =
        some lvl ∧
      zrevrank (st1.db.sets (getXPKey 5)) (ascii "bob") = some rank ∧
      st1.sent = (stateOf [(ascii "bob", 20)]).sent ++
        [{ ChatID := 5, ReplyToMessageID := 7,
           Text := (handlerOf levels0_50 [ascii "root"]).formatTitle lvl.2 (ascii "bob")
             (int64OfScore
               ((zscore ((stateOf [(ascii "bob", 20)]).db.sets (getXPKey 5)) (ascii "bob")).getD 0 + (-50)))
             ((rank : Int) + 1) ((st1.db.sets (getXPKey 5)).length : Int),
           ParseMode := .ModeHTML, DisableWebPagePreview := true }]) ∧
    ascii "/givexp " ++ (if true then [64] else []) ++ ascii "bob" ++ [32] ++ formatInt (-50) =
      ascii "/givexp @bob -50" ∧
    ((handlerOf levels0_50 [ascii "root"]).giveXP (stateOf [(ascii "bob", 20)])
        (ascii "/givexp @bob -50") 5 (ascii "root") 7).map
      (fun s => (zscore (s.db.sets (getXPKey 5)) (ascii "bob"), s.sent)) =
      some (some (-30),
        [{ ChatID := 5, ReplyToMessageID := 7, Text := ascii "%s bob -30 1 1 1",
           ParseMode := .ModeHTML, DisableWebPagePreview := true }]) :=
  ⟨by decide, by decide, by decide, by decide, by decide, by decide, by decide,
    giveXP_grant (handlerOf levels0_50 [ascii "root"]) (stateOf [(ascii "bob", 20)]) 5 (ascii "root") 7
      (ascii "bob") true (-50) (by decide) (by decide) (by decide) (by decide) (by decide)
      (by decide) (by decide),
    by decide, by decide⟩

/-! ## The leaderboard -/

theorem bytesLe_total (a b : GoString) : bytesLe a b = true ∨ bytesLe b a = true := by
  induction a generalizing b with
  | nil => simp [bytesLe]
  | cons x xs ih =>
    cases b with
    | nil => simp [bytesLe]
    | cons y ys =>
      simp only [bytesLe, Bool.or_eq_true, Bool.and_eq_true, decide_eq_true_eq]
      rcases lt_trichotomy x y with hlt | heq | hgt
      · exact Or.inl (Or.inl hlt)
      · rcases ih ys with h1 | h1
        · exact Or.inl (Or.inr ⟨heq, h1⟩)
        · exact Or.inr (Or.inr ⟨heq.symm, h1⟩)
      · exact Or.inr (Or.inl hgt)

theorem bytesLe_trans (a b c : GoString) (hab : bytesLe a b = true) (hbc : bytesLe b c = true) :
    bytesLe a c = true := by
  induction a generalizing b c with
  | nil => simp [bytesLe]
  | cons x xs ih =>
    cases b with
    | nil => simp [bytesLe] at hab
    | cons y ys =>
      cases c with
      | nil => simp [bytesLe] at hbc
      | cons w ws =>
        simp only [bytesLe, Bool.or_eq_true, Bool.and_eq_true, decide_eq_true_eq] at hab hbc ⊢
        rcases hab with hlt | ⟨heq, h1⟩
        · rcases hbc with hlt2 | ⟨heq2, h2⟩
          · exact Or.inl (by omega)
          · exact Or.inl (by omega)
        · rcases hbc with hlt2 | ⟨heq2, h2⟩
          · exact Or.inl (by omega)
          · exact Or.inr ⟨by omega, ih ys ws h1 h2⟩

theorem zLe_total (a b : GoString × Int) : zLe b a = true ∨ zLe a b = true := by
  simp only [zLe, Bool.or_eq_true, Bool.and_eq_true, decide_eq_true_eq]
  rcases lt_trichotomy a.2 b.2 with hlt | heq | hgt
  · exact Or.inr (Or.inl hlt)
  · rcases bytesLe_total a.1 b.1 with h1 | h1
    · exact Or.inr (Or.inr ⟨heq, h1⟩)
    · exact Or.inl (Or.inr ⟨heq.symm, h1⟩)
  · exact Or.inl (Or.inl hgt)

theorem zLe_trans (a b c : GoString × Int) (hab : zLe a b = true) (hbc : zLe b c = true) :
    zLe a c = true := by
  simp only [zLe, Bool.or_eq_true, Bool.and_eq_true, decide_eq_true_eq] at hab hbc ⊢
  rcases hab with hlt | ⟨heq, h1⟩
  · rcases hbc with hlt2 | ⟨heq2, h2⟩
    · exact Or.inl (by omega)
    · exact Or.inl (by omega)
  · rcases hbc with hlt2 | ⟨heq2, h2⟩
    · exact Or.inl (by omega)
    · exact Or.inr ⟨by omega, bytesLe_trans _ _ _ h1 h2⟩

theorem zLe_score (a b : GoString × Int) (h : zLe a b = true) : a.2 ≤ b.2 := by
  simp only [zLe, Bool.or_eq_true, Bool.and_eq_true, decide_eq_true_eq] at h
  rcases h with hlt | ⟨heq, _⟩ <;> omega

theorem zRev_descending (z : ZSet) : (zRev z).Pairwise (fun a b => b.2 ≤ a.2) := by
  have hs : List.Sorted (fun a b : GoString × Int => zLe b a = true) (zRev z) :=
    @List.sorted_insertionSort _ (fun a b : GoString × Int => zLe b a = true) _
      ⟨fun a b => zLe_total a b⟩ ⟨fun a b c hab hbc => zLe_trans c b a hbc hab⟩ z
  exact List.Pairwise.imp (fun {a b} hab => zLe_score b a hab) hs

theorem intercalate_cons (sep x : GoString) (xs : List GoString) :
    sep.intercalate (x :: xs) = x ++ (xs.map (fun l => sep ++ l)).flatten := by
  induction xs generalizing x with
  | nil => simp [List.intercalate]
  | cons y ys ih =>
    have h1 := ih y
    simp only [List.intercalate] at h1 ⊢
    simp [h1]

theorem rankEntry_total (h : handler) (hne : h.config.Levels ≠ []) (i : Nat) (z : GoString × Int) :
    ∃ lvl, h.getLevel (int64OfScore z.2) = some lvl ∧
      h.rankEntry i z = some (rankLine (formatRank ((i : Int) + 1)) z.1 lvl.2.Title (int64OfScore z.2)) := by
  obtain ⟨lvl, hl⟩ := getLevel_total h (int64OfScore z.2) hne
  exact ⟨lvl, hl, by simp [handler.rankEntry, hl]⟩

theorem ranksLoop_succ (h : handler) (hne : h.config.Levels ≠ []) (zs : ZSet) (i : Nat) (b : GoString) :
    ∃ lines : List GoString, lines.length = zs.length ∧
      (∀ j e, zs[j]? = some e → ∃ line, lines[j]? = some line ∧ h.rankEntry (i + 1 + j) e = some line) ∧
      h.ranksLoop zs (i + 1) b = some (b ++ (lines.map (fun l => [10] ++ l)).flatten) := by
  induction zs generalizing i b with
  | nil => exact ⟨[], rfl, by simp, by simp [handler.ranksLoop]⟩
  | cons z zs ih =>
    obtain ⟨lvl, _, hline⟩ := rankEntry_total h hne (i + 1) z
    obtain ⟨lines, hlen, hall, hloop⟩ := ih (i + 1)
      ((b ++ [10]) ++ rankLine (formatRank (((i + 1 : Nat) : Int) + 1)) z.1 lvl.2.Title (int64OfScore z.2))
    refine ⟨rankLine (formatRank (((i + 1 : Nat) : Int) + 1)) z.1 lvl.2.Title (int64OfScore z.2) :: lines,
      by simp [hlen], ?_, ?_⟩
    · intro j e hj
      cases j with
      | zero =>
        simp only [List.getElem?_cons_zero, Option.some.injEq] at hj
        subst hj
        exact ⟨_, by simp, hline⟩
      | succ j =>
        simp only [List.getElem?_cons_succ] at hj
        obtain ⟨line, h1, h2⟩ := hall j e hj
        refine ⟨line, by simpa using h1, ?_⟩
        have : i + 1 + (j + 1) = i + 1 + 1 + j := by omega
        rw [this]
        exact h2
    · unfold handler.ranksLoop
      simp only [hline, ne_eq, Nat.add_one_ne_zero, not_false_eq_true, if_true]
      rw [hloop]
      simp

theorem ranksLoop_zero (h : handler) (hne : h.config.Levels ≠ []) (zs : ZSet) :
    ∃ lines : List GoString, lines.length = zs.length ∧
      (∀ j e, zs[j]? = some e → ∃ line, lines[j]? = some line ∧ h.rankEntry j e = some line) ∧
      h.ranksLoop zs 0 [] = some (List.intercalate [10] lines) := by
  cases zs with
  | nil => exact ⟨[], rfl, by simp, by simp [handler.ranksLoop, List.intercalate]⟩
  | cons z zs =>
    obtain ⟨lvl, _, hline⟩ := rankEntry_total h hne 0 z
    obtain ⟨lines, hlen, hall, hloop⟩ := ranksLoop_succ h hne zs 0
      ([] ++ rankLine (formatRank (((0 : Nat) : Int) + 1)) z.1 lvl.2.Title (int64OfScore z.2))
    refine ⟨rankLine (formatRank (((0 : Nat) : Int) + 1)) z.1 lvl.2.Title (int64OfScore z.2) :: lines,
      by simp [hlen], ?_, ?_⟩
    · intro j e hj
      cases j with
      | zero =>
        simp only [List.getElem?_cons_zero, Option.some.injEq] at hj
        subst hj
        exact ⟨_, by simp, hline⟩
      | succ j =>
        simp only [List.getElem?_cons_succ] at hj
        obtain ⟨line, h1, h2⟩ := hall j e hj
        refine ⟨line, by simpa using h1, ?_⟩
        have : j + 1 = 0 + 1 + j := by omega
        rw [this]
        exact h2
    · unfold handler.ranksLoop
      simp only [hline, ne_eq, not_true_eq_false, if_false]
      rw [hloop, intercalate_cons]
      simp

theorem zrevrange_top (z : ZSet) : zrevrange z 0 10 = (zRev z).take 11 := by
  simp [zrevrange]

/-- C9: on a reachable Redis and with a non-empty level list, `ranks` sends
nothing when the leaderboard of the chat is empty, and otherwise hands exactly
one message to the transport (HTML, not a reply), whose text is the lines
joined by newlines, one line for each of the first `min(n, 11)` entries of the
leaderboard taken from the highest score downwards; line `j + 1` is the rank
glyph `formatRank(j + 1)`, the member in bold, the dash, the title of
`getLevel(score)` and the score in parentheses.  The glyph is a medal for the
ranks 1, 2, 3 and `#` followed by the decimal rank from 4 on. -/
theorem ranks_leaderboard (h : handler) (st : State) (chatID : Int)
    (hne : h.config.Levels ≠ []) (hup : st.db.down = false) :
    ((st.db.sets (getXPKey chatID)).length = 0 → h.ranks st chatID = some st) ∧
    ((st.db.sets (getXPKey chatID)).length ≠ 0 →
      ∃ (lines : List GoString) (st1 : State),
        h.ranks st chatID = some st1 ∧ st1.db = st.db ∧
        st1.sent = st.sent ++
          [{ ChatID := chatID, ReplyToMessageID := 0, Text := List.intercalate [10] lines,
             ParseMode := .ModeHTML, DisableWebPagePreview := true }] ∧
        lines.length = min (st.db.sets (getXPKey chatID)).length 11 ∧
        ∀ (j : Nat) (e : GoString × Int), ((zRev (st.db.sets (getXPKey chatID))).take 11)[j]? = some e →
          ∃ lvl, h.getLevel (int64OfScore e.2) = some lvl ∧
            lines[j]? = some (formatRank ((j : Int) + 1) ++ ascii " <b>" ++ e.1 ++ ascii "</b> " ++
              [0xe2, 0x80, 0x93, 0xe2, 0x81, 0xa0] ++ ascii " " ++ lvl.2.Title ++ ascii " (" ++
              formatInt (int64OfScore e.2) ++ ascii " XP)")) ∧
    (zRev (st.db.sets (getXPKey chatID))).Perm (st.db.sets (getXPKey chatID)) ∧
    (zRev (st.db.sets (getXPKey chatID))).Pairwise (fun a b => b.2 ≤ a.2) ∧
    formatRank 1 = [0xf0, 0x9f, 0xa5, 0x87] ∧ formatRank 2 = [0xf0, 0x9f, 0xa5, 0x88] ∧
    formatRank 3 = [0xf0, 0x9f, 0xa5, 0x89] ∧
    (∀ i : Int, 4 ≤ i → formatRank i = ascii "#" ++ formatInt i) := by
  have hlenrev : (zRev (st.db.sets (getXPKey chatID))).length = (st.db.sets (getXPKey chatID)).length :=
    (zRev_perm _).length_eq
  refine ⟨?_, ?_, zRev_perm _, zRev_descending _, rfl, rfl, rfl, ?_⟩
  · intro h0
    unfold handler.ranks
    simp only [Store.ZRevRangeWithScores, hup, Bool.false_eq_true, if_false, zrevrange_top]
    have : ((zRev (st.db.sets (getXPKey chatID))).take 11).length = 0 := by
      rw [List.length_take, hlenrev, h0]
      rfl
    rw [if_pos this]
  · intro h0
    obtain ⟨lines, hlen, hall, hloop⟩ :=
      ranksLoop_zero h hne ((zRev (st.db.sets (getXPKey chatID))).take 11)
    have hlt : ((zRev (st.db.sets (getXPKey chatID))).take 11).length =
        min (st.db.sets (getXPKey chatID)).length 11 := by
      rw [List.length_take, hlenrev, Nat.min_comm]
    have hpos : ¬ ((zRev (st.db.sets (getXPKey chatID))).take 11).length = 0 := by
      rw [hlt]
      omega
    have hrun : ∃ st1, h.ranks st chatID = some st1 ∧ st1.db = st.db ∧
        st1.sent = st.sent ++
          [{ ChatID := chatID, ReplyToMessageID := 0, Text := List.intercalate [10] lines,
             ParseMode := .ModeHTML, DisableWebPagePreview := true }] := by
      unfold handler.ranks
      simp only [Store.ZRevRangeWithScores, hup, Bool.false_eq_true, if_false, zrevrange_top]
      rw [if_neg hpos]
      simp only [hloop]
      split
      · exact ⟨_, rfl, rfl, rfl⟩
      · exact ⟨_, rfl, rfl, rfl⟩
    obtain ⟨st1, h1, h2, h3⟩ := hrun
    refine ⟨lines, st1, h1, h2, h3, by rw [hlen, hlt], ?_⟩
    intro j e hj
    obtain ⟨line, hl1, hl2⟩ := hall j e hj
    obtain ⟨lvl, hlvl, hentry⟩ := rankEntry_total h hne j e
    rw [hentry] at hl2
    refine ⟨lvl, hlvl, ?_⟩
    rw [hl1, ← Option.some.inj hl2]
    rfl
  · intro i hi
    unfold formatRank
    have h1 : ¬ i = 1 := by omega
    have h2 : ¬ i = 2 := by omega
    have h3 : ¬ i = 3 := by omega
    simp [h1, h2, h3]

/-- A chat with carol at 10, alice at 70 and bob at 30 points, levels at 0 and
50: one message, three lines, alice first. -/
theorem ranks_leaderboard_witness :
    (handlerOf levels0_50 []).config.Levels ≠ [] ∧
    (stateOf [(ascii "carol", 10), (ascii "alice", 70), (ascii "bob", 30)]).db.down = false ∧
    ((handlerOf levels0_50 []).ranks
        (stateOf [(ascii "carol", 10), (ascii "alice", 70), (ascii "bob", 30)]) 5).map (fun s => s.sent) =
      some [{ ChatID := 5, ReplyToMessageID := 0,
              Text := [0xf0, 0x9f, 0xa5, 0x87] ++ ascii " <b>alice</b> " ++
                  [0xe2, 0x80, 0x93, 0xe2, 0x81, 0xa0] ++ ascii " Regular (70 XP)" ++ [10] ++
                [0xf0, 0x9f, 0xa5, 0x88] ++ ascii " <b>bob</b> " ++
                  [0xe2, 0x80, 0x93, 0xe2, 0x81, 0xa0] ++ ascii " Regular (30 XP)" ++ [10] ++
                [0xf0, 0x9f, 0xa5, 0x89] ++ ascii " <b>carol</b> " ++
                  [0xe2, 0x80, 0x93, 0xe2, 0x81, 0xa0] ++ ascii " Regular (10 XP)",
              ParseMode := .ModeHTML, DisableWebPagePreview := true }] ∧
    ((handlerOf levels0_50 []).ranks (stateOf []) 5).map (fun s => s.sent) = some [] ∧
    ((stateOf [(ascii "carol", 10), (ascii "alice", 70), (ascii "bob", 30)]).db.sets (getXPKey 5)).length ≠ 0 ∧
    (∃ (lines : List GoString) (st1 : State),
      (handlerOf levels0_50 []).ranks
        (stateOf [(ascii "carol", 10), (ascii "alice", 70), (ascii "bob", 30)]) 5 = some st1 ∧
      st1.db = (stateOf [(ascii "carol", 10), (ascii "alice", 70), (ascii "bob", 30)]).db ∧
      st1.sent = (stateOf [(ascii "carol", 10), (ascii "alice", 70), (ascii "bob", 30)]).sent ++
        [{ ChatID := 5, ReplyToMessageID := 0, Text := List.intercalate [10] lines,
           ParseMode := .ModeHTML, DisableWebPagePreview := true }] ∧
      lines.length =
        min ((stateOf [(ascii "carol", 10), (ascii "alice", 70), (ascii "bob", 30)]).db.sets (getXPKey 5)).length 11 ∧
      ∀ (j : Nat) (e : GoString × Int), ((zRev ((stateOf [(ascii "carol", 10), (ascii "alice", 70), (ascii "bob", 30)]).db.sets
            (getXPKey 5))).take 11)[j]? = some e →
        ∃ lvl, (handlerOf levels0_50 []).getLevel (int64OfScore e.2) = some lvl ∧
          lines[j]? = some (formatRank ((j : Int) + 1) ++ ascii " <b>" ++ e.1 ++ ascii "</b> " ++
            [0xe2, 0x80, 0x93, 0xe2, 0x81, 0xa0] ++ ascii " " ++ lvl.2.Title ++ ascii " (" ++
            formatInt (int64OfScore e.2) ++ ascii " XP)")) :=
  ⟨by decide, by decide, by decide, by decide, by decide,
    (ranks_leaderboard (handlerOf levels0_50 [])
      (stateOf [(ascii "carol", 10), (ascii "alice", 70), (ascii "bob", 30)]) 5
      (by decide) (by decide)).2.1 (by decide)⟩

/-! ## A run of plain messages -/

theorem processAll_append (h : handler) (st : State) (xs ys : List Message) :
    h.processAll st (xs ++ ys) = (h.processAll st xs).bind (fun s => h.processAll s ys) := by
  induction xs generalizing st with
  | nil => simp [handler.processAll]
  | cons m ms ih =>
    simp only [List.cons_append, handler.processAll]
    cases h.processMsg st m with
    | none => rfl
    | some st1 => exact ih st1

theorem processMsg_plain (h : handler) (st : State) (m : Message) (u : User)
    (hu : m.From = some u) (hx : isCommand m.Text (ascii "/xp") = some false)
    (hg : isCommand m.Text (ascii "/givexp") = some false)
    (hr : isCommand m.Text (ascii "/ranks") = some false) :
    h.processMsg st m = h.incrementXP st (some u) m.ChatID := by
  unfold handler.processMsg handleMsg
  simp only [hx, hg, hr, hu]
  simp only [Bool.false_eq_true, if_false, List.append_nil, List.nil_append, handler.runTasks,
    handler.runTask]
  cases h.incrementXP st (some u) m.ChatID <;> rfl

theorem incrementXP_quiet (h : handler) (st : State) (u : User) (chatID : Int)
    (hup : st.db.down = false)
    (hex : exactDouble ((zscore (st.db.sets (getXPKey chatID)) u.UserName).getD 0 + 1))
    (hq : h.levelChanged ((zscore (st.db.sets (getXPKey chatID)) u.UserName).getD 0 + 1) = some false) :
    h.incrementXP st (some u) chatID =
      some { st with db := (st.db.put (getXPKey chatID)
        (zincrby (st.db.sets (getXPKey chatID)) 1 u.UserName).1) } := by
  have hone : float64OfInt64 1 = 1 := by decide
  unfold handler.incrementXP
  simp only [Store.ZIncrBy, hup, Bool.false_eq_true, if_false, hone, zincrby_snd _ _ _ hex, hq]

theorem incrementXP_loud (h : handler) (st : State) (u : User) (chatID : Int)
    (hne : h.config.Levels ≠ []) (hup : st.db.down = false)
    (hex : exactDouble ((zscore (st.db.sets (getXPKey chatID)) u.UserName).getD 0 + 1))
    (hq : h.levelChanged ((zscore (st.db.sets (getXPKey chatID)) u.UserName).getD 0 + 1) = some true) :
    ∃ (st1 : State) (lvl : Nat × level) (rank : Nat),
      h.incrementXP st (some u) chatID = some st1 ∧
      st1.db = st.db.put (getXPKey chatID) (zincrby (st.db.sets (getXPKey chatID)) 1 u.UserName).1 ∧
      h.getLevel (int64OfScore ((zscore (st.db.sets (getXPKey chatID)) u.UserName).getD 0 + 1)) =
        some lvl ∧
      st1.sent = st.sent ++
        [{ ChatID := chatID, ReplyToMessageID := 0,
           Text := h.formatTitle lvl.2 u.UserName
             (int64OfScore ((zscore (st.db.sets (getXPKey chatID)) u.UserName).getD 0 + 1))
             ((rank : Int) + 1)
             (((zincrby (st.db.sets (getXPKey chatID)) 1 u.UserName).1).length : Int),
           ParseMode := .ModeHTML, DisableWebPagePreview := true }] := by
  have hone : float64OfInt64 1 = 1 := by decide
  obtain ⟨lvl, hl⟩ := getLevel_total h
    (int64OfScore ((zscore (st.db.sets (getXPKey chatID)) u.UserName).getD 0 + 1)) hne
  have hz := zscore_zincrby_self (st.db.sets (getXPKey chatID)) 1 u.UserName
  rw [zincrby_snd _ _ _ hex] at hz
  obtain ⟨rank, hr⟩ := zrevrank_some _ _ _ hz
  obtain ⟨st1, hp, hdb, hsent⟩ := printXP_present h
    { st with db := (st.db.put (getXPKey chatID) (zincrby (st.db.sets (getXPKey chatID)) 1 u.UserName).1) }
    u.UserName chatID 0 _ rank lvl hup (by simpa [Store.put_sets_self] using hz)
    (by simpa [Store.put_sets_self] using hr) hl
  refine ⟨st1, lvl, rank, ?_, hdb, hl, ?_⟩
  · unfold handler.incrementXP
    simp only [Store.ZIncrBy, hup, Bool.false_eq_true, if_false, hone, zincrby_snd _ _ _ hex, hq]
    exact hp
  · rw [hsent]
    simp [Store.put_sets_self]

theorem quiet_run (h : handler) (u : User) (chatID : Int) (msgs : List Message)
    (hplain : ∀ m ∈ msgs, m.From = some u ∧ m.ChatID = chatID ∧
      isCommand m.Text (ascii "/xp") = some false ∧ isCommand m.Text (ascii "/givexp") = some false ∧
      isCommand m.Text (ascii "/ranks") = some false)
    (st : State) (hup : st.db.down = false) (v : Int)
    (hv : (zscore (st.db.sets (getXPKey chatID)) u.UserName).getD 0 = v)
    (hq : ∀ s : Int, v < s → s ≤ v + msgs.length → exactDouble s ∧ h.levelChanged s = some false) :
    ∃ st1, h.processAll st msgs = some st1 ∧ st1.db.down = false ∧ st1.sent = st.sent ∧
      (zscore (st1.db.sets (getXPKey chatID)) u.UserName).getD 0 = v + msgs.length ∧
      (msgs ≠ [] → zscore (st1.db.sets (getXPKey chatID)) u.UserName = some (v + msgs.length)) := by
  induction msgs generalizing st v with
  | nil => exact ⟨st, rfl, hup, rfl, by simpa using hv, by simp⟩
  | cons m ms ih =>
    obtain ⟨hu, hc, hx, hg, hr⟩ := hplain m (by simp)
    obtain ⟨hex, hqq⟩ := hq (v + 1) (by omega) (by simp only [List.length_cons]; push_cast; omega)
    rw [← hv] at hex hqq
    have hstep : h.processMsg st m = some { st with db := (st.db.put (getXPKey chatID)
        (zincrby (st.db.sets (getXPKey chatID)) 1 u.UserName).1) } := by
      rw [processMsg_plain h st m u hu hx hg hr, hc]
      exact incrementXP_quiet h st u chatID hup hex hqq
    have hz := zscore_zincrby_self (st.db.sets (getXPKey chatID)) 1 u.UserName
    rw [zincrby_snd _ _ _ hex, hv] at hz
    obtain ⟨st1, h1, h2, h3, h4, h5⟩ := ih (fun m1 hm1 => hplain m1 (List.mem_cons_of_mem _ hm1))
      { st with db := (st.db.put (getXPKey chatID) (zincrby (st.db.sets (getXPKey chatID)) 1 u.UserName).1) }
      hup (v + 1) (by simp [Store.put_sets_self, hz])
      (fun s hs1 hs2 => hq s (by omega) (by simp only [List.length_cons]; push_cast; omega))
    have hlen : v + ((m :: ms).length : Int) = v + 1 + (ms.length : Int) := by
      simp only [List.length_cons]; push_cast; omega
    refine ⟨st1, ?_, h2, h3, by rw [h4, hlen], ?_⟩
    · simp only [handler.processAll, hstep]
      exact h1
    · intro _
      rw [hlen]
      cases ms with
      | nil =>
        simp only [handler.processAll, Option.some.injEq] at h1
        subst h1
        simpa [Store.put_sets_self] using hz
      | cons m2 ms2 => exact h5 (by simp)

theorem levelChanged_three (h : handler) (t1 t2 t3 f1 f2 f3 : GoString)
    (hlv : h.config.Levels = [⟨1, 0, t1, f1⟩, ⟨2, 50, t2, f2⟩, ⟨3, 150, t3, f3⟩])
    (s : Int) (h1 : 1 ≤ s) (h2 : s ≤ 100) : h.levelChanged s = some (decide (s = 50)) := by
  have hmin : minInt64 < s := by unfold minInt64; omega
  have hmax : s ≤ maxInt64 := by unfold maxInt64; omega
  unfold handler.levelChanged handler.getLevel
  rw [int64OfScore_id s (le_of_lt hmin) hmax, wrapInt64_pred s hmin hmax, hlv]
  have a1 : ¬ s - 1 < 0 := by omega
  have a2 : ¬ s < 0 := by omega
  have a3 : s - 1 < 150 := by omega
  have a4 : s < 150 := by omega
  rcases lt_trichotomy s 50 with hlt | heq | hgt
  · have b1 : s - 1 < 50 := by omega
    have b2 : ¬ s = 50 := by omega
    simp [scanLevels, a1, a2, b1, hlt, b2]
  · subst heq
    simp [scanLevels]
  · have b1 : ¬ s - 1 < 50 := by omega
    have b2 : ¬ s < 50 := by omega
    have b3 : ¬ s = 50 := by omega
    simp [scanLevels, a1, a2, a3, a4, b1, b2, b3]

theorem getLevel_three (h : handler) (t1 t2 t3 f1 f2 f3 : GoString)
    (hlv : h.config.Levels = [⟨1, 0, t1, f1⟩, ⟨2, 50, t2, f2⟩, ⟨3, 150, t3, f3⟩])
    (s : Int) (h1 : 50 ≤ s) (h2 : s ≤ 100) :
    h.getLevel (int64OfScore s) = some (2, ⟨3, 150, t3, f3⟩) := by
  have hmin : minInt64 ≤ s := by unfold minInt64; omega
  have hmax : s ≤ maxInt64 := by unfold maxInt64; omega
  unfold handler.getLevel
  rw [int64OfScore_id s hmin hmax, hlv]
  have a1 : ¬ s < 0 := by omega
  have a2 : ¬ s < 50 := by omega
  have a3 : s < 150 := by omega
  simp [scanLevels, a1, a2, a3]

theorem getD_eq_some (o : Option Int) (v : Int) (hv : o.getD 0 = v) (hne : v ≠ 0) : o = some v := by
  cases o with
  | none => exact absurd hv.symm hne
  | some w => simpa using hv

/-! ## The end-to-end scenario -/

/-- C7, as stated, fails on the resolved level: with the levels (threshold 0,
level 1), (50, 2), (150, 3) and dave unscored, after 100 plain messages of
dave his score is 100 and exactly one announcement was sent, but the level
`getLevel` resolves for 100 is the first one whose threshold is above 100,
the 150-threshold level with number 3, not level 2. -/
theorem dave_level_is_not_two :
    ((handlerOf levels0_50_150 []).processAll (stateOf []) (List.replicate 100 daveMsg)).map
      (fun s => (zscore (s.db.sets (getXPKey 5)) (ascii "dave"), s.sent.length)) = some (some 100, 1) ∧
    ((handlerOf levels0_50_150 []).getLevel (int64OfScore 100)).map (fun r => (r.2.XP, r.2.Level)) =
      some (150, 3) ∧
    ((handlerOf levels0_50_150 []).getLevel (int64OfScore 100)).map (fun r => r.2.Level) ≠ some 2 := by
  decide

/-- C7 (amended): with the levels (threshold 0, level 1), (50, 2), (150, 3), a
reachable Redis and dave unscored in the chat, when dave sends 100 plain
messages (none of the three commands) that are handled one after the other:
after the first `k` of them his score is `k`, no message was sent while
`k < 50`, and from `k = 50` on exactly one message was sent, the announcement
made when his score reached 50 (not a reply, formatted for the score 50 with
the 150-threshold level); at the end his score is 100 and the level resolved
for it is level 3, the 150-threshold level. -/
theorem dave_hundred_messages (h : handler) (st : State) (chatID : Int) (msgs : List Message)
    (t1 t2 t3 f1 f2 f3 : GoString)
    (hlv : h.config.Levels = [⟨1, 0, t1, f1⟩, ⟨2, 50, t2, f2⟩, ⟨3, 150, t3, f3⟩])
    (hup : st.db.down = false)
    (hun : zscore (st.db.sets (getXPKey chatID)) (ascii "dave") = none)
    (hlen : msgs.length = 100)
    (hplain : ∀ m ∈ msgs, m.From = some dave ∧ m.ChatID = chatID ∧
      isCommand m.Text (ascii "/xp") = some false ∧ isCommand m.Text (ascii "/givexp") = some false ∧
      isCommand m.Text (ascii "/ranks") = some false) :
    ∃ (rank total : Int),
      (∀ k : Nat, k ≤ 100 → ∃ stk, h.processAll st (msgs.take k) = some stk ∧
        (zscore (stk.db.sets (getXPKey chatID)) (ascii "dave")).getD 0 = (k : Int) ∧
        stk.sent = st.sent ++
          (if 50 ≤ k then
            [{ ChatID := chatID, ReplyToMessageID := 0,
               Text := h.formatTitle ⟨3, 150, t3, f3⟩ (ascii "dave") 50 rank total,
               ParseMode := .ModeHTML, DisableWebPagePreview := true }]
           else [])) ∧
      (∃ st1, h.processAll st msgs = some st1 ∧
        zscore (st1.db.sets (getXPKey chatID)) (ascii "dave") = some 100 ∧
        h.getLevel (int64OfScore 100) = some (2, ⟨3, 150, t3, f3⟩) ∧
        st1.sent = st.sent ++
          [{ ChatID := chatID, ReplyToMessageID := 0,
             Text := h.formatTitle ⟨3, 150, t3, f3⟩ (ascii "dave") 50 rank total,
             ParseMode := .ModeHTML, DisableWebPagePreview := true }]) := by
  have hne : h.config.Levels ≠ [] := by rw [hlv]; simp
  have hquiet : ∀ s : Int, 1 ≤ s → s ≤ 100 → s ≠ 50 →
      exactDouble s ∧ h.levelChanged s = some false := by
    intro s h1 h2 h3
    refine ⟨by unfold exactDouble; omega, ?_⟩
    rw [levelChanged_three h t1 t2 t3 f1 f2 f3 hlv s h1 h2]
    simp [h3]
  have hsub : ∀ k, ∀ m ∈ msgs.take k, m.From = some dave ∧ m.ChatID = chatID ∧
      isCommand m.Text (ascii "/xp") = some false ∧ isCommand m.Text (ascii "/givexp") = some false ∧
      isCommand m.Text (ascii "/ranks") = some false :=
    fun k m hm => hplain m (List.mem_of_mem_take hm)
  have hv0 : (zscore (st.db.sets (getXPKey chatID)) dave.UserName).getD 0 = 0 := by
    show (zscore (st.db.sets (getXPKey chatID)) (ascii "dave")).getD 0 = 0
    rw [hun]
    rfl
  -- the first 49 messages
  have hlen49 : (msgs.take 49).length = 49 := by rw [List.length_take, hlen]; rfl
  obtain ⟨st49, hrun49, hup49, hsent49, hscore49, _⟩ :=
    quiet_run h dave chatID (msgs.take 49) (hsub 49) st hup 0 hv0
      (fun s hs1 hs2 => hquiet s (by omega) (by rw [hlen49] at hs2; omega)
        (by rw [hlen49] at hs2; omega))
  rw [hlen49] at hscore49
  -- the 50th message
  have hloud : h.levelChanged
      ((zscore (st49.db.sets (getXPKey chatID)) dave.UserName).getD 0 + 1) = some true := by
    rw [hscore49, levelChanged_three h t1 t2 t3 f1 f2 f3 hlv _ (by norm_num) (by norm_num)]
    rfl
  have hex50 : exactDouble
      ((zscore (st49.db.sets (getXPKey chatID)) dave.UserName).getD 0 + 1) := by
    rw [hscore49]
    decide
  obtain ⟨st50, lvl, rank, hrun50, hdb50, hlvl50, hsent50⟩ :=
    incrementXP_loud h st49 dave chatID hne hup49 hex50 hloud
  rw [hscore49] at hlvl50 hsent50
  have h50 : ((0 : Int) + ((49 : Nat) : Int) + 1) = 50 := by norm_num
  rw [h50] at hlvl50 hsent50
  rw [getLevel_three h t1 t2 t3 f1 f2 f3 hlv 50 (by norm_num) (by norm_num)] at hlvl50
  have hlvl : lvl = (2, ⟨3, 150, t3, f3⟩) := (Option.some.inj hlvl50).symm
  subst hlvl
  rw [int64OfScore_id 50 (by unfold minInt64; norm_num) (by unfold maxInt64; norm_num), hsent49]
    at hsent50
  have hup50 : st50.db.down = false := by rw [hdb50]; exact hup49
  have hscore50 : (zscore (st50.db.sets (getXPKey chatID)) dave.UserName).getD 0 = 50 := by
    rw [hdb50, Store.put_sets_self, zscore_zincrby_self, zincrby_snd _ _ _ hex50, hscore49]
    norm_num
  -- any prefix of at least 50 messages
  have hlate : ∀ k : Nat, 50 ≤ k → k ≤ 100 → ∃ stk, h.processAll st (msgs.take k) = some stk ∧
      (zscore (stk.db.sets (getXPKey chatID)) (ascii "dave")).getD 0 = (k : Int) ∧
      stk.sent = st50.sent := by
    intro k hk1 hk2
    have hsplit : msgs.take k = msgs.take 49 ++ (msgs.take k).drop 49 := by
      have h1 : (msgs.take k).take 49 = msgs.take 49 := by
        rw [List.take_take]
        congr 1
        omega
      rw [← h1, List.take_append_drop]
    have hdlen : ((msgs.take k).drop 49).length = k - 49 := by
      rw [List.length_drop, List.length_take, hlen]
      omega
    cases hd : (msgs.take k).drop 49 with
    | nil => rw [hd] at hdlen; simp at hdlen; omega
    | cons m rest =>
      rw [hd] at hdlen
      have hm : m ∈ msgs.take k := List.mem_of_mem_drop (by rw [hd]; simp)
      obtain ⟨hu, hc, hx, hg, hr⟩ := hsub k m hm
      have hrest : ∀ m1 ∈ rest, m1.From = some dave ∧ m1.ChatID = chatID ∧
          isCommand m1.Text (ascii "/xp") = some false ∧
          isCommand m1.Text (ascii "/givexp") = some false ∧
          isCommand m1.Text (ascii "/ranks") = some false :=
        fun m1 hm1 => hsub k m1 (List.mem_of_mem_drop (by rw [hd]; exact List.mem_cons_of_mem _ hm1))
      have hrl : rest.length = k - 50 := by
        simp only [List.length_cons] at hdlen
        omega
      obtain ⟨stk, hrunk, _, hsentk, hscorek, _⟩ :=
        quiet_run h dave chatID rest hrest st50 hup50 50 hscore50
          (fun s hs1 hs2 => hquiet s (by omega) (by rw [hrl] at hs2; omega) (by omega))
      refine ⟨stk, ?_, ?_, hsentk⟩
      · rw [hsplit, hd, processAll_append, hrun49]
        simp only [Option.some_bind, handler.processAll]
        rw [processMsg_plain h st49 m dave hu hx hg hr, hc, hrun50]
        exact hrunk
      · show (zscore (stk.db.sets (getXPKey chatID)) dave.UserName).getD 0 = (k : Int)
        rw [hscorek, hrl]
        omega
  refine ⟨(rank : Int) + 1,
    (((zincrby (st49.db.sets (getXPKey chatID)) 1 dave.UserName).1).length : Int), ?_, ?_⟩
  · intro k hk
    by_cases hk50 : 50 ≤ k
    · obtain ⟨stk, h1, h2, h3⟩ := hlate k hk50 hk
      refine ⟨stk, h1, h2, ?_⟩
      rw [if_pos hk50, h3, hsent50]
      rfl
    · have hlenk : (msgs.take k).length = k := by rw [List.length_take, hlen]; omega
      obtain ⟨stk, h1, _, h3, h4, _⟩ :=
        quiet_run h dave chatID (msgs.take k) (hsub k) st hup 0 hv0
          (fun s hs1 hs2 => hquiet s (by omega) (by rw [hlenk] at hs2; omega)
            (by rw [hlenk] at hs2; omega))
      refine ⟨stk, h1, ?_, ?_⟩
      · show (zscore (stk.db.sets (getXPKey chatID)) dave.UserName).getD 0 = (k : Int)
        rw [h4, hlenk]
        omega
      · rw [if_neg hk50, h3]
        simp
  · obtain ⟨st1, h1, h2, h3⟩ := hlate 100 (by norm_num) (by norm_num)
    have hall : msgs.take 100 = msgs := by
      rw [← hlen]
      exact List.take_length msgs
    rw [hall] at h1
    refine ⟨st1, h1, getD_eq_some _ _ h2 (by norm_num), ?_, ?_⟩
    · exact getLevel_three h t1 t2 t3 f1 f2 f3 hlv 100 (by norm_num) (by norm_num)
    · rw [h3, hsent50]
      rfl

/-- The scenario in chat 5, from an empty leaderboard, with 100 messages
`hello`. -/
theorem dave_hundred_messages_witness :
    (handlerOf levels0_50_150 []).config.Levels =
      [⟨1, 0, ascii "Newbie", ascii "%s"⟩, ⟨2, 50, ascii "Regular", ascii "%s"⟩,
       ⟨3, 150, ascii "Veteran", ascii "%s"⟩] ∧
    (stateOf []).db.down = false ∧
    zscore ((stateOf []).db.sets (getXPKey 5)) (ascii "dave") = none ∧
    (List.replicate 100 daveMsg).length = 100 ∧
    (∀ m ∈ List.replicate 100 daveMsg, m.From = some dave ∧ m.ChatID = 5 ∧
      isCommand m.Text (ascii "/xp") = some false ∧ isCommand m.Text (ascii "/givexp") = some false ∧
      isCommand m.Text (ascii "/ranks") = some false) ∧
    (∃ (rank total : Int),
      (∀ k : Nat, k ≤ 100 → ∃ stk,
        (handlerOf levels0_50_150 []).processAll (stateOf []) ((List.replicate 100 daveMsg).take k) =
          some stk ∧
        (zscore (stk.db.sets (getXPKey 5)) (ascii "dave")).getD 0 = (k : Int) ∧
        stk.sent = (stateOf []).sent ++
          (if 50 ≤ k then
            [{ ChatID := 5, ReplyToMessageID := 0,
               Text := (handlerOf levels0_50_150 []).formatTitle ⟨3, 150, ascii "Veteran", ascii "%s"⟩
                 (ascii "dave") 50 rank total,
               ParseMode := .ModeHTML, DisableWebPagePreview := true }]
           else [])) ∧
      (∃ st1, (handlerOf levels0_50_150 []).processAll (stateOf []) (List.replicate 100 daveMsg) =
          some st1 ∧
        zscore (st1.db.sets (getXPKey 5)) (ascii "dave") = some 100 ∧
        (handlerOf levels0_50_150 []).getLevel (int64OfScore 100) =
          some (2, ⟨3, 150, ascii "Veteran", ascii "%s"⟩) ∧
        st1.sent = (stateOf []).sent ++
          [{ ChatID := 5, ReplyToMessageID := 0,
             Text := (handlerOf levels0_50_150 []).formatTitle ⟨3, 150, ascii "Veteran", ascii "%s"⟩
               (ascii "dave") 50 rank total,
             ParseMode := .ModeHTML, DisableWebPagePreview := true }])) ∧
    ((handlerOf levels0_50_150 []).processAll (stateOf []) (List.replicate 49 daveMsg)).map
      (fun s => (zscore (s.db.sets (getXPKey 5)) (ascii "dave"), s.sent)) = some (some 49, []) ∧
    ((handlerOf levels0_50_150 []).processAll (stateOf []) (List.replicate 50 daveMsg)).map
      (fun s => (zscore (s.db.sets (getXPKey 5)) (ascii "dave"), s.sent)) =
      some (some 50,
        [{ ChatID := 5, ReplyToMessageID := 0, Text := ascii "%s dave 50 3 1 1",
           ParseMode := .ModeHTML, DisableWebPagePreview := true }]) :=
  ⟨rfl, by decide, by decide, by decide, by decide,
    dave_hundred_messages (handlerOf levels0_50_150 []) (stateOf []) 5 (List.replicate 100 daveMsg)
      (ascii "Newbie") (ascii "Regular") (ascii "Veteran") (ascii "%s") (ascii "%s") (ascii "%s")
      rfl (by decide) (by decide) (by decide) (by decide),
    by decide, by decide⟩

end XPBot
